import Mathlib

/-!
# Verification of the front-matter / blog aggregation pipeline

A shallow embedding of the markdown front-matter parser and blog
aggregator (`FrontmatterParser`, `BlogExtractor`, `BlogProcessor`) of the
travel-journal repository, together with proofs of the specified
properties.

Modelling conventions:
* JavaScript strings are modelled as `List Char` (`Str`).  All string
  operations used by the source (`trim`, `startsWith`, `indexOf`,
  `slice`, `split`) are defined below with JavaScript semantics.
* Dynamic (YAML-decoded) values are modelled by the inductive `YVal`;
  JavaScript objects are association lists in insertion order.
* The YAML codec is the external `js-yaml` library, not code of this
  repository; the parser is therefore parameterised by a pair of
  functions `yload : Str → Option Fm` (decode, `none` = exception) and
  `ydump : Fm → Str` (serialize).  A small concrete model codec
  (`yamlLoadModel` / `yamlDumpModel`) is provided for evaluation.
* All functions are total; JavaScript exceptions that the source code
  catches are modelled by `Option`.
-/

/-- JavaScript strings, modelled as lists of characters. -/
abbrev Str := List Char

/-- Embed a Lean string literal as a `Str`. -/
def sOf (s : String) : Str := s.data

/-- Whitespace characters recognised by `String.prototype.trim` (the
subset that can occur in markdown sources). -/
def jsWs (c : Char) : Bool :=
  c = ' ' || c = '\n' || c = '\t' || c = '\r' || c = '\x0b' || c = '\x0c'

/-- Model of `s.trimStart()`. -/
def jsTrimStart (s : Str) : Str := s.dropWhile jsWs

/-- Model of `s.trimEnd()`. -/
def jsTrimEnd (s : Str) : Str := (s.reverse.dropWhile jsWs).reverse

/-- Model of `s.trim()`. -/
def jsTrim (s : Str) : Str := jsTrimEnd (jsTrimStart s)

/-- Auxiliary scan for `indexOf`: first index `≥ i` (reported in the
original string's coordinates) at which `pat` occurs in `s`. -/
def idxOfAux (pat : Str) : Str → Nat → Option Nat
  | [], i => if pat.isEmpty then some i else none
  | c :: rest, i =>
    if pat.isPrefixOf (c :: rest) then some i else idxOfAux pat rest (i + 1)

/-- Model of `s.indexOf(pat, start)`; `none` models the sentinel `-1`. -/
def jsIndexOfFrom (s pat : Str) (start : Nat) : Option Nat :=
  idxOfAux pat (s.drop start) start

/-- Model of `s.slice(0, b)` for a possibly negative JavaScript index `b`. -/
def jsSliceTo {α : Type} (l : List α) (b : Int) : List α :=
  l.take (if b < 0 then l.length - min l.length b.natAbs else min b.toNat l.length)

/-! ## Dynamic values -/

/-- Dynamic values produced by YAML decoding (and passed around the blog
pipeline): null, booleans, numbers, strings, arrays, and objects
(association lists in insertion order). -/
inductive YVal where
  | nullV : YVal
  | boolV (b : Bool) : YVal
  | numV (n : Int) : YVal
  | strV (s : Str) : YVal
  | listV (xs : List YVal) : YVal
  | mapV (m : List (Str × YVal)) : YVal

open YVal

instance : Inhabited YVal := ⟨nullV⟩

/-- A decoded frontmatter object: an association list of dynamic values
in insertion order (`FrontmatterData` in the source). -/
abbrev Fm := List (Str × YVal)

/-- Property read `m[k]` (`undefined` = `none`). -/
def fmGet : Fm → Str → Option YVal
  | [], _ => none
  | (k', v) :: rest, k => if k = k' then some v else fmGet rest k

/-- JavaScript truthiness of a `YVal` (arrays and objects are always
truthy; `NaN` does not arise in this model). -/
def yTruthy : YVal → Bool
  | nullV => false
  | boolV b => b
  | numV n => n ≠ 0
  | strV s => !s.isEmpty
  | listV _ => true
  | mapV _ => true

/-- Truthiness of an optional value (`none` models `undefined`). -/
def optTruthy (v : Option YVal) : Bool := (v.map yTruthy).getD false

/-- Model of `Array.isArray(v)`. -/
def yIsList : YVal → Bool
  | listV _ => true
  | _ => false

/-- Model of `typeof v === "string"`. -/
def yIsStr : YVal → Bool
  | strV _ => true
  | _ => false

/-- Model of `typeof v === "boolean"`. -/
def yIsBool : YVal → Bool
  | boolV _ => true
  | _ => false

/-- Property access `v.k` on a dynamic value: only objects have
(data) properties; any other receiver yields `undefined` here. -/
def yGet (v : YVal) (k : Str) : Option YVal :=
  match v with
  | mapV m => fmGet m k
  | _ => none

/-- Optional-chaining access `o?.k`. -/
def yGetOpt (o : Option YVal) (k : Str) : Option YVal := o.bind (yGet · k)

/-- Model of `v === (b : boolean)` — strict equality against a boolean. -/
def yEqBool (v : YVal) (b : Bool) : Bool :=
  match v with
  | boolV b' => b' = b
  | _ => false

/-- Model of `v === (t : string)` — strict equality against a string. -/
def yEqStr (v : YVal) (t : Str) : Bool :=
  match v with
  | strV s => s = t
  | _ => false

mutual

/-- JavaScript string coercion `String(v)` (used for object keys and the
`String(...)` call in date normalization), restricted to the value
shapes that occur in this pipeline.  Arrays join their elements'
coercions with commas. -/
def yKeyStr : YVal → Str
  | nullV => sOf ("null")
  | boolV true => sOf ("true")
  | boolV false => sOf ("false")
  | numV n => sOf (toString n)
  | strV s => s
  | listV xs => yKeyStrList xs
  | mapV _ => sOf ("[object Object]")

def yKeyStrList : List YVal → Str
  | [] => []
  | [x] => yKeyStr x
  | x :: y :: xs => yKeyStr x ++ ',' :: yKeyStrList (y :: xs)

end

/-! ## Frontmatter objects -/

/-- Property write `m[k] = v`: updates an existing binding in place,
otherwise appends (JavaScript object key insertion order). -/
def fmSet : Fm → Str → YVal → Fm
  | [], k, v => [(k, v)]
  | (k', v') :: rest, k, v =>
    if k' = k then (k', v) :: rest else (k', v') :: fmSet rest k v

/-- Object spread `{...a, ...b}` (later keys win, key order preserved). -/
def fmSpread (a b : Fm) : Fm := b.foldl (fun acc kv => fmSet acc kv.1 kv.2) a

/-- Field-for-field equality of frontmatter objects, modulo key
ordering. -/
def fmEquiv (m₁ m₂ : Fm) : Prop := ∀ k, fmGet m₁ k = fmGet m₂ k

/-! Keys given semantic meaning by the pipeline. -/

def titleK : Str := sOf ("title")
def dateK : Str := sOf ("date")
def authorK : Str := sOf ("author")
def tagsK : Str := sOf ("tags")
def categoryK : Str := sOf ("category")
def descriptionK : Str := sOf ("description")
def locationK : Str := sOf ("location")
def featuredK : Str := sOf ("featured")
def draftK : Str := sOf ("draft")
def slugK : Str := sOf ("slug")
def filePathK : Str := sOf ("filePath")
def hasFrontmatterK : Str := sOf ("hasFrontmatter")
def coordinatesK : Str := sOf ("coordinates")
def latK : Str := sOf ("lat")
def lngK : Str := sOf ("lng")
def nameK : Str := sOf ("name")

/-- Model of `DEFAULT_FRONTMATTER` from `BlogType.ts`:
`{ draft: false, featured: false, tags: [] }`. -/
def DEFAULT_FRONTMATTER : Fm :=
  [(draftK, boolV false), (featuredK, boolV false), (tagsK, listV [])]

/-! ## FrontmatterParser -/

namespace FrontmatterParser

/-- Result of `FrontmatterParser.parse` (`ParsedFrontmatter`). -/
structure ParsedFm where
  frontmatter : Fm
  content : Str
  hasFrontmatter : Bool

/-- The `tags` normalization block of `normalizeFrontmatter`: a truthy
non-array value is replaced — a string by its comma-split,
piecewise-trimmed list, anything else by `[]`. -/
def normTagsStep (n : Fm) : Fm :=
  match fmGet n tagsK with
  | some tv =>
    if yTruthy tv && !yIsList tv then
      match tv with
      | strV s => fmSet n tagsK (listV (((s.splitOn ',').map jsTrim).map strV))
      | _ => fmSet n tagsK (listV [])
    else n
  | none => n

/-- The `date` normalization block: a truthy non-string value is
coerced by `String(...)`. -/
def normDateStep (n : Fm) : Fm :=
  match fmGet n dateK with
  | some dv =>
    if yTruthy dv && !yIsStr dv then fmSet n dateK (strV (yKeyStr dv)) else n
  | none => n

/-- The `draft` normalization block: a present non-boolean value is
coerced by `Boolean(...)`. -/
def normDraftStep (n : Fm) : Fm :=
  match fmGet n draftK with
  | some dv => if !yIsBool dv then fmSet n draftK (boolV (yTruthy dv)) else n
  | none => n

/-- The `featured` normalization block: a present non-boolean value is
coerced by `Boolean(...)`. -/
def normFeaturedStep (n : Fm) : Fm :=
  match fmGet n featuredK with
  | some fv => if !yIsBool fv then fmSet n featuredK (boolV (yTruthy fv)) else n
  | none => n

/-- Model of `normalizeFrontmatter(data)`: copy all fields over the default
record, then apply the four field-normalization blocks in source
order. -/
def normalizeFrontmatter (data : Fm) : Fm :=
  normFeaturedStep (normDraftStep (normDateStep (normTagsStep
    (fmSpread DEFAULT_FRONTMATTER data))))

/-- The delimiter-splitting phase of `parse`: trim the input; if it does
not start with `---`, or no `\n---` follows position 3, there is no
metadata block; otherwise return the (trimmed) text between the
delimiters and the (trimmed) text after the closing delimiter. -/
def splitFM (raw : Str) : Option (Str × Str) :=
  let t := jsTrim raw
  if (sOf ("---")).isPrefixOf t then
    match jsIndexOfFrom t (sOf ("\n---")) 3 with
    | some i => some (jsTrim ((t.take i).drop 3), jsTrim (t.drop (i + 4)))
    | none => none
  else none

/-- Model of `FrontmatterParser.parse(rawContent)`, parameterised by the YAML
decoder `yl` (`none` models a decode exception; a `yaml.load` result of
`null` is modelled by `yl` returning `some []`, matching the `|| {}` in
the source).  All failure paths return the default record with the
original, untrimmed input as content. -/
def parse (yl : Str → Option Fm) (raw : Str) : ParsedFm :=
  match splitFM raw with
  | none => ⟨DEFAULT_FRONTMATTER, raw, false⟩
  | some (fmText, content) =>
    match yl fmText with
    | none => ⟨DEFAULT_FRONTMATTER, raw, false⟩
    | some parsed =>
      ⟨normalizeFrontmatter (fmSpread DEFAULT_FRONTMATTER parsed), content, true⟩

/-- Model of `FrontmatterParser.create(frontmatter)`: serialize and wrap in
delimiters (the serialization-failure catch branch cannot fire in this
total model). -/
def create (yd : Fm → Str) (fm : Fm) : Str :=
  sOf ("---\n") ++ yd fm ++ sOf ("---\n")

/-- Model of `extractTitleFromContent`: first line matching `/^#\s+(.+)$/m`,
with the capture trimmed. -/
def matchTitleLine (line : Str) : Option Str :=
  match line with
  | '#' :: rest =>
    let sp := rest.takeWhile (fun c => jsWs c)
    let rem := rest.drop sp.length
    if !sp.isEmpty && !rem.isEmpty then some (jsTrim rem) else none
  | _ => none

def extractTitleFromContent (content : Str) : Option Str :=
  (content.splitOn '\n').findSome? matchTitleLine

/-- A maximal run of `[0-9\-]+` at the head of `s`, with the remainder. -/
def dateRun (s : Str) : Str × Str :=
  let num := s.takeWhile (fun c => c.isDigit || c = '-')
  (num, s.drop num.length)

/-- Pattern 1: `/^\*Date:\s*([0-9\-]+)\*/m`. -/
def matchDate1 (line : Str) : Option Str :=
  if (sOf ("*Date:")).isPrefixOf line then
    let r := (line.drop 6).dropWhile jsWs
    let (num, rest) := dateRun r
    if !num.isEmpty && rest.head? = some '*' then some (jsTrim num) else none
  else none

/-- Pattern 2: `/^\*\*Date:\*\*\s*([0-9\-]+)/m`. -/
def matchDate2 (line : Str) : Option Str :=
  if (sOf ("**Date:**")).isPrefixOf line then
    let r := (line.drop 9).dropWhile jsWs
    let (num, _) := dateRun r
    if !num.isEmpty then some (jsTrim num) else none
  else none

/-- Pattern 3: `/^Date:\s*([0-9\-]+)/m`. -/
def matchDate3 (line : Str) : Option Str :=
  if (sOf ("Date:")).isPrefixOf line then
    let r := (line.drop 5).dropWhile jsWs
    let (num, _) := dateRun r
    if !num.isEmpty then some (jsTrim num) else none
  else none

/-- Model of `extractDateFromContent`: the three date-annotation patterns, in
priority order, each searched across all lines. -/
def extractDateFromContent (content : Str) : Option Str :=
  let lines := content.splitOn '\n'
  ((lines.findSome? matchDate1).orElse fun _ =>
    (lines.findSome? matchDate2).orElse fun _ =>
      lines.findSome? matchDate3)

end FrontmatterParser

/-! ## BlogExtractor -/

/-- Model of `BlogExtractionConfig` with the defaults installed by the
`BlogExtractor` constructor. -/
structure BlogExtractionConfig where
  fileGlob : Str := sOf ("@blogs/*.md")
  defaultAuthor : Option Str := none
  validateFrontmatter : Bool := true
  extractContentPreview : Bool := true
  previewLength : Nat := 150

/-- The default configuration (`new BlogExtractor({})`). -/
def DEFAULT_CONFIG : BlogExtractionConfig := {}

namespace BlogExtractor

/-- Model of `generateSlug(filePath)`: last path segment with a final `.md`
stripped. -/
def generateSlug (filePath : Str) : Str :=
  let last := (filePath.splitOn '/').getLastD []
  if (sOf (".md")).isSuffixOf last then last.take (last.length - 3) else last

/-- Model of `generateTitleFromSlug(slug)`: split on hyphens, capitalize each
word's first character, join with spaces. -/
def generateTitleFromSlug (slug : Str) : Str :=
  List.intercalate (sOf (" "))
    ((slug.splitOn '-').map fun w =>
      match w with
      | [] => []
      | c :: cs => c.toUpper :: cs)

/-- Global replace of `/#{1,6}\s+/`: at a run of 1–6 `#` followed by
whitespace, drop the hashes and the whitespace run.  `fuel` bounds the
recursion (callers pass the string length; every step consumes at least
one character). -/
def repHeaders : Nat → Str → Str
  | 0, s => s
  | _ + 1, [] => []
  | f + 1, c :: rest =>
    if c = '#' then
      let run := 1 + (rest.takeWhile (· = '#')).length
      if run ≤ 6 && (((c :: rest).drop run).head?.elim false jsWs) then
        repHeaders f (((c :: rest).drop run).dropWhile jsWs)
      else '#' :: repHeaders f rest
    else c :: repHeaders f rest

/-- Scan for the closing `**` of a bold span; `.` does not match a
newline, so the search stops at one. -/
def findDD : Str → Option (Str × Str)
  | '*' :: '*' :: r => some ([], r)
  | '\n' :: _ => none
  | c :: r => (findDD r).map fun p => (c :: p.1, p.2)
  | [] => none

/-- Global replace of `/\*\*(.*?)\*\*/` by the capture. -/
def repBold : Nat → Str → Str
  | 0, s => s
  | _ + 1, [] => []
  | f + 1, '*' :: '*' :: r =>
    match findDD r with
    | some (inner, after) => inner ++ repBold f after
    | none => '*' :: repBold f ('*' :: r)
  | f + 1, c :: r => c :: repBold f r

/-- Scan for the closing `*` of an italic span. -/
def findD : Str → Option (Str × Str)
  | '*' :: r => some ([], r)
  | '\n' :: _ => none
  | c :: r => (findD r).map fun p => (c :: p.1, p.2)
  | [] => none

/-- Global replace of `/\*(.*?)\*/` by the capture. -/
def repItal : Nat → Str → Str
  | 0, s => s
  | _ + 1, [] => []
  | f + 1, '*' :: r =>
    match findD r with
    | some (inner, after) => inner ++ repItal f after
    | none => '*' :: repItal f r
  | f + 1, c :: r => c :: repItal f r

/-- Scan for `](` (link text / target separator), not crossing a
newline. -/
def findToParen : Str → Option (Str × Str)
  | ']' :: '(' :: r => some ([], r)
  | '\n' :: _ => none
  | c :: r => (findToParen r).map fun p => (c :: p.1, p.2)
  | [] => none

/-- Scan for the `)` closing a link target, not crossing a newline. -/
def findClose : Str → Option Str
  | ')' :: r => some r
  | '\n' :: _ => none
  | _ :: r => findClose r
  | [] => none

/-- Global replace of `/\[(.*?)\]\(.*?\)/` by the link-text capture. -/
def repLink : Nat → Str → Str
  | 0, s => s
  | _ + 1, [] => []
  | f + 1, '[' :: r =>
    (match findToParen r with
     | some (inner, rest) =>
       match findClose rest with
       | some after => inner ++ repLink f after
       | none => '[' :: repLink f r
     | none => '[' :: repLink f r)
  | f + 1, c :: r => c :: repLink f r

/-- Global replace of `/\n+/` by a single space. -/
def repNlAux : Bool → Str → Str
  | _, [] => []
  | prevNl, c :: r =>
    if c = '\n' then
      if prevNl then repNlAux true r else ' ' :: repNlAux true r
    else c :: repNlAux false r

def repNl (s : Str) : Str := repNlAux false s

/-- Model of `generateDescription(content)`: strip markdown formatting, collapse
newlines to spaces, trim, and truncate to the configured preview length
with an ellipsis. -/
def generateDescription (cfg : BlogExtractionConfig) (content : Str) : Str :=
  if !cfg.extractContentPreview then []
  else
    let p1 := repHeaders content.length content
    let p2 := repBold p1.length p1
    let p3 := repItal p2.length p2
    let p4 := repLink p3.length p3
    let plainText := jsTrim (repNl p4)
    if plainText.length > cfg.previewLength then
      plainText.take cfg.previewLength ++ sOf ("...")
    else plainText

end BlogExtractor

/-- Model of `BlogMeta`: the normalized record of one document.  Fields hold the
dynamic values the code actually stores (e.g. `featured` is whatever
`frontmatter.featured || false` produced); `extras` holds the
frontmatter keys not in the fixed field set, which the source copies
onto the record object. -/
structure BlogMeta where
  slug : Str
  title : YVal
  date : Option YVal
  author : Option YVal
  tags : YVal
  category : Option YVal
  description : YVal
  location : Option YVal
  featured : YVal
  draft : YVal
  filePath : Str
  hasFrontmatter : Bool
  extras : Fm

/-- Model of `a || b` on a possibly-undefined dynamic value. -/
def jsOrY (v : Option YVal) (dflt : YVal) : YVal :=
  match v with
  | some x => if yTruthy x then x else dflt
  | none => dflt

/-- The keys of the object literal built by `extractMeta` (all present
as keys, even when their value is `undefined`); frontmatter keys outside
this set are copied through. -/
def fixedMetaKeys : List Str :=
  [slugK, titleK, dateK, authorK, tagsK, categoryK, descriptionK, locationK,
    featuredK, draftK, filePathK, hasFrontmatterK]

namespace BlogExtractor

/-- The title fallback chain
`extractTitleFromContent(md) || generateTitleFromSlug(slug) || "Untitled"`. -/
def titleFallback (md slug : Str) : Str :=
  let t1 := (FrontmatterParser.extractTitleFromContent md).getD []
  if !t1.isEmpty then t1
  else
    let t2 := generateTitleFromSlug slug
    if !t2.isEmpty then t2 else sOf ("Untitled")

/-- Model of `extractMeta(content, filePath)`: parse the frontmatter, derive the
slug, resolve title/date/description through their fallback chains, copy
the remaining fields (with `|| default` where the source uses it), and
pass through any extra frontmatter keys. -/
def extractMeta (cfg : BlogExtractionConfig) (yl : Str → Option Fm)
    (content filePath : Str) : BlogMeta :=
  let p := FrontmatterParser.parse yl content
  let fm := p.frontmatter
  let md := p.content
  let slug := generateSlug filePath
  let title : YVal :=
    match fmGet fm titleK with
    | some t => if yTruthy t then t else strV (titleFallback md slug)
    | none => strV (titleFallback md slug)
  let date : Option YVal :=
    let d := fmGet fm dateK
    if optTruthy d then d
    else (FrontmatterParser.extractDateFromContent md).map strV
  { slug := slug
    title := title
    date := date
    author :=
      let a := fmGet fm authorK
      if optTruthy a then a else cfg.defaultAuthor.map strV
    tags := jsOrY (fmGet fm tagsK) (listV [])
    category := fmGet fm categoryK
    description := jsOrY (fmGet fm descriptionK) (strV (generateDescription cfg md))
    location := fmGet fm locationK
    featured := jsOrY (fmGet fm featuredK) (boolV false)
    draft := jsOrY (fmGet fm draftK) (boolV false)
    filePath := filePath
    hasFrontmatter := p.hasFrontmatter
    extras := fm.filter fun kv => !(fixedMetaKeys.contains kv.1) }

end BlogExtractor

/-- Dynamic property access `meta[field]` on a `BlogMeta` record. -/
def metaGet (m : BlogMeta) (k : Str) : Option YVal :=
  if k = slugK then some (strV m.slug)
  else if k = titleK then some m.title
  else if k = dateK then m.date
  else if k = authorK then m.author
  else if k = tagsK then some m.tags
  else if k = categoryK then m.category
  else if k = descriptionK then some m.description
  else if k = locationK then m.location
  else if k = featuredK then some m.featured
  else if k = draftK then some m.draft
  else if k = filePathK then some (strV m.filePath)
  else if k = hasFrontmatterK then some (boolV m.hasFrontmatter)
  else fmGet m.extras k

/-- Model of `value !== undefined && value !== null && value !== ""`. -/
def definedNonEmpty (v : Option YVal) : Bool :=
  match v with
  | none => false
  | some nullV => false
  | some (strV s) => !s.isEmpty
  | some _ => true

/-- Model of `FrontmatterParser.validate(frontmatter, requiredFields)`: the source
accesses `frontmatter[field]` dynamically; the accessor is abstracted so
the same predicate serves both `Fm` and `BlogMeta` call sites. -/
def validateFields (get : Str → Option YVal) (required : List Str) : Bool :=
  required.all fun f => definedNonEmpty (get f)

/-! ## Date model

`new Date(v).getTime()` is a host facility; it is modelled here for the
`YYYY-MM-DD` strings the pipeline documents (strict ISO date, validated
calendar ranges, value in milliseconds since the epoch); any other
string yields `none`, modelling `NaN`. -/

def isLeap (y : Int) : Bool := (y % 4 = 0 && y % 100 ≠ 0) || y % 400 = 0

def daysInMonth (y : Int) (m : Nat) : Nat :=
  [31, if isLeap y then 29 else 28, 31, 30, 31, 30, 31, 31, 30, 31, 30,
    31].getD (m - 1) 31

/-- Days since 1970-01-01 of a civil date (standard era-based
computation). -/
def daysFromCivil (y : Int) (m d : Nat) : Int :=
  let y' := if m ≤ 2 then y - 1 else y
  let era := Int.fdiv y' 400
  let yoe := y' - era * 400
  let mp : Nat := (m + 9) % 12
  let doy : Nat := (153 * mp + 2) / 5 + d - 1
  let doe : Int := yoe * 365 + Int.fdiv yoe 4 - Int.fdiv yoe 100 + (doy : Int)
  era * 146097 + doe - 719468

def digitsToNat (l : List Char) : Nat := l.foldl (fun a c => a * 10 + (c.toNat - 48)) 0

/-- Model of `new Date(s).getTime()` for a strict `YYYY-MM-DD` string; `none`
models `NaN`. -/
def parseYMDms (s : Str) : Option Int :=
  match s with
  | [y1, y2, y3, y4, '-', m1, m2, '-', d1, d2] =>
    if [y1, y2, y3, y4, m1, m2, d1, d2].all Char.isDigit then
      let y : Int := (digitsToNat [y1, y2, y3, y4] : Int)
      let m := digitsToNat [m1, m2]
      let d := digitsToNat [d1, d2]
      if 1 ≤ m && m ≤ 12 && 1 ≤ d && d ≤ daysInMonth y m then
        some (daysFromCivil y m d * 86400000)
      else none
    else none
  | _ => none

/-- Model of `new Date(v).getTime()` for a dynamic value (string parsing as
above; numbers are timestamps; `true`/`false`/`null` coerce to 1/0/0;
other shapes yield `NaN`). -/
def jsDateVal : YVal → Option Int
  | strV s => parseYMDms s
  | numV n => some n
  | boolV b => some (if b then 1 else 0)
  | nullV => some 0
  | listV _ => none
  | mapV _ => none

/-- Model of `dateA < dateB` on `Date` objects (`false` when either is `NaN`). -/
def jsDateLt (a b : Option Int) : Bool :=
  match a, b with
  | some x, some y => x < y
  | _, _ => false

/-- Model of `dateA > dateB` on `Date` objects (`false` when either is `NaN`). -/
def jsDateGt (a b : Option Int) : Bool :=
  match a, b with
  | some x, some y => y < x
  | _, _ => false

/-! ## Filters and sorting -/

/-- The `dateRange` sub-object of `BlogFilterOptions` (the source's
`end` field is called `dend` here; `end` is a Lean keyword). -/
structure DateRange where
  start : Option Str := none
  dend : Option Str := none

/-- Model of `BlogFilterOptions` (absent key = `none`). -/
structure BlogFilterOptions where
  tags : Option (List Str) := none
  category : Option Str := none
  featured : Option Bool := none
  author : Option Str := none
  hasLocation : Option Bool := none
  dateRange : Option DateRange := none

/-- Model of `arr.includes(t)` for a string `t` (the receiver is an array
whenever this is reached; `includes` uses strict equality). -/
def yIncludes (v : YVal) (t : Str) : Bool :=
  match v with
  | listV xs => xs.any (yEqStr · t)
  | _ => false

/-- Model of `v !== (t : string)` comparison for a possibly-undefined value. -/
def optEqStr (v : Option YVal) (t : Str) : Bool :=
  match v with
  | some x => yEqStr x t
  | none => false

/-- Model of `hasCoordinates` from `BlogType.ts`:
`Boolean(blog.location?.coordinates?.lat && blog.location?.coordinates?.lng)`. -/
def hasCoordinates (blog : BlogMeta) : Bool :=
  optTruthy (yGetOpt (yGetOpt blog.location coordinatesK) latK) &&
    optTruthy (yGetOpt (yGetOpt blog.location coordinatesK) lngK)

/-- Model of `BlogProcessor.passesFilter(blog, filters)`: each present clause must
pass (the sequence of early returns is a conjunction). -/
def passesFilter (blog : BlogMeta) (filters : BlogFilterOptions) : Bool :=
  (match filters.tags with
   | some ts =>
     if ts.length > 0 then yTruthy blog.tags && ts.any (yIncludes blog.tags) else true
   | none => true) &&
  (match filters.category with
   | some c => if !c.isEmpty then optEqStr blog.category c else true
   | none => true) &&
  (match filters.featured with
   | some fv => yEqBool blog.featured fv
   | none => true) &&
  (match filters.author with
   | some a => if !a.isEmpty then optEqStr blog.author a else true
   | none => true) &&
  (match filters.hasLocation with
   | some hv => optTruthy (yGetOpt blog.location coordinatesK) == hv
   | none => true) &&
  (match filters.dateRange with
   | some dr =>
     if optTruthy blog.date then
       let bd := blog.date.bind jsDateVal
       (match dr.start with
        | some st => if !st.isEmpty then !jsDateLt bd (parseYMDms st) else true
        | none => true) &&
       (match dr.dend with
        | some en => if !en.isEmpty then !jsDateGt bd (parseYMDms en) else true
        | none => true)
     else true
   | none => true)

/-- The `sortBy` discriminator. -/
inductive SortKey where
  | date
  | title
  | featured
  | author
  | category
deriving DecidableEq, Repr

/-- The `sortOrder` discriminator. -/
inductive SortOrder where
  | asc
  | desc
deriving DecidableEq, Repr

/-- Model of `a.localeCompare(b)`, modelled as code-point lexicographic
comparison (locale-aware collation is a host facility). -/
def lexCmp : Str → Str → Int
  | [], [] => 0
  | [], _ :: _ => -1
  | _ :: _, [] => 1
  | x :: xs, y :: ys =>
    if x.toNat < y.toNat then -1 else if y.toNat < x.toNat then 1 else lexCmp xs ys

/-- The sort key `a.date ? new Date(a.date).getTime() : 0` (`none`
models `NaN` from an unparseable date). -/
def dateSortKey (m : BlogMeta) : Option Int :=
  if optTruthy m.date then m.date.bind jsDateVal else some 0

/-- The `comparison` value from `sortBlogs`'s `switch` (`none` = `NaN`;
string receivers of `localeCompare` are coerced as in `yKeyStr`). -/
def sortComparison (sortBy : SortKey) (a b : BlogMeta) : Option Int :=
  match sortBy with
  | .date =>
    match dateSortKey a, dateSortKey b with
    | some x, some y => some (x - y)
    | _, _ => none
  | .title => some (lexCmp (yKeyStr a.title) (yKeyStr b.title))
  | .featured =>
    some ((if yTruthy a.featured then 1 else 0) - (if yTruthy b.featured then 1 else 0))
  | .author =>
    some (lexCmp (yKeyStr (jsOrY a.author (strV []))) (yKeyStr (jsOrY b.author (strV []))))
  | .category =>
    some (lexCmp (yKeyStr (jsOrY a.category (strV []))) (yKeyStr (jsOrY b.category (strV []))))

/-- The full comparator passed to `Array.prototype.sort`; per the
ECMAScript `SortCompare` operation a `NaN` comparator result is treated
as `+0`. -/
def blogCmp (sortBy : SortKey) (order : SortOrder) (a b : BlogMeta) : Int :=
  let comparison := (sortComparison sortBy a b).getD 0
  match order with
  | .desc => -comparison
  | .asc => comparison

/-- Stable insertion of `x` into a sorted list under comparator `c`
(`x` goes before the first element it does not strictly follow). -/
def insertCmp {α : Type} (c : α → α → Int) (x : α) : List α → List α
  | [] => [x]
  | y :: ys => if c x y ≤ 0 then x :: y :: ys else y :: insertCmp c x ys

/-- Stable sort under an integer comparator, modelling
`Array.prototype.sort` (stable per ES2019; for a consistent comparator
the result is uniquely determined, so any stable algorithm is a faithful
model). -/
def sortCmp {α : Type} (c : α → α → Int) : List α → List α
  | [] => []
  | x :: xs => insertCmp c x (sortCmp c xs)

/-- Model of `BlogProcessor.sortBlogs`. -/
def sortBlogs (blogs : List BlogMeta) (sortBy : SortKey) (order : SortOrder) :
    List BlogMeta :=
  sortCmp (blogCmp sortBy order) blogs

/-! ## BlogProcessor queries -/

/-- Model of `BlogProcessingOptions` as passed by callers (absent key =
`none`). -/
structure BlogProcessingOptions where
  includeDrafts : Option Bool := none
  requiredFields : Option (List Str) := none
  sortBy : Option SortKey := none
  sortOrder : Option SortOrder := none
  filterBy : Option BlogFilterOptions := none

/-- Options after `{...DEFAULT_BLOG_PROCESSING_OPTIONS, ...options}`
(defaults: drafts excluded, no required fields, date-descending sort,
empty filter — the empty filter object is truthy, so `passesFilter` is
always consulted and passes every record). -/
structure ResolvedOptions where
  includeDrafts : Bool
  requiredFields : List Str
  sortBy : SortKey
  sortOrder : SortOrder
  filterBy : BlogFilterOptions

def resolveOptions (o : BlogProcessingOptions) : ResolvedOptions :=
  { includeDrafts := o.includeDrafts.getD false
    requiredFields := o.requiredFields.getD []
    sortBy := o.sortBy.getD .date
    sortOrder := o.sortOrder.getD .desc
    filterBy := o.filterBy.getD {} }

namespace BlogProcessor

/-- The per-file body of `getAllBlogMeta`'s loop: extract, then skip
drafts (unless included), records failing required-field validation, and
records failing the active filter. -/
def processFile (cfg : BlogExtractionConfig) (yl : Str → Option Fm)
    (opts : ResolvedOptions) (pc : Str × Str) : Option BlogMeta :=
  let meta := BlogExtractor.extractMeta cfg yl pc.2 pc.1
  if !opts.includeDrafts && yTruthy meta.draft then none
  else if opts.requiredFields.length > 0 &&
      !validateFields (metaGet meta) opts.requiredFields then none
  else if !passesFilter meta opts.filterBy then none
  else some meta

/-- Model of `BlogProcessor.getAllBlogMeta(options)`: process every file of the
collection in order, then sort.  `files` is the `(path, raw text)`
collection supplied by the file-listing collaborator. -/
def getAllBlogMeta (cfg : BlogExtractionConfig) (yl : Str → Option Fm)
    (files : List (Str × Str)) (options : BlogProcessingOptions) :
    List BlogMeta :=
  let opts := resolveOptions options
  sortBlogs (files.filterMap (processFile cfg yl opts)) opts.sortBy opts.sortOrder

/-- Model of `BlogPost`: a record together with the document content (metadata
block stripped). -/
structure BlogPost where
  meta : BlogMeta
  content : Str

/-- Model of `BlogProcessor.getBlogBySlug(slug, includeDrafts)`. -/
def getBlogBySlug (cfg : BlogExtractionConfig) (yl : Str → Option Fm)
    (files : List (Str × Str)) (slug : Str) (includeDrafts : Bool) :
    Option BlogPost :=
  match files.find? (fun pc => BlogExtractor.generateSlug pc.1 == slug) with
  | none => none
  | some pc =>
    let meta := BlogExtractor.extractMeta cfg yl pc.2 pc.1
    if yTruthy meta.draft && !includeDrafts then none
    else some ⟨meta, (FrontmatterParser.parse yl pc.2).content⟩

/-- Model of `BlogProcessor.getFeaturedBlogs(limit)`: non-draft featured records,
date-descending; `limit ? blogs.slice(0, limit) : blogs` (so a falsy
limit of `0` returns everything). -/
def getFeaturedBlogs (cfg : BlogExtractionConfig) (yl : Str → Option Fm)
    (files : List (Str × Str)) (limit : Option Int) : List BlogMeta :=
  let blogs := getAllBlogMeta cfg yl files
    { includeDrafts := some false
      filterBy := some { featured := some true }
      sortBy := some .date
      sortOrder := some .desc }
  match limit with
  | some l => if l = 0 then blogs else jsSliceTo blogs l
  | none => blogs

/-- Model of `tagCounts[tag] = (tagCounts[tag] || 0) + 1` on an insertion-ordered
record. -/
def bumpCount : List (Str × Nat) → Str → List (Str × Nat)
  | [], k => [(k, 1)]
  | (k', n) :: rest, k =>
    if k' = k then (k', n + 1) :: rest else (k', n) :: bumpCount rest k

/-- Model of `BlogProcessor.getTagsWithCounts(includeDrafts)`: count tag
occurrences over the (draft-filtered) collection, then sort by count
descending.  (`blog.tags` is an array whenever truthy, so the `forEach`
is modelled by the `listV` branch.) -/
def getTagsWithCounts (cfg : BlogExtractionConfig) (yl : Str → Option Fm)
    (files : List (Str × Str)) (includeDrafts : Bool) : List (Str × Nat) :=
  let blogs := getAllBlogMeta cfg yl files { includeDrafts := some includeDrafts }
  let tagCounts := blogs.foldl (fun acc blog =>
    match blog.tags with
    | listV xs => xs.foldl (fun a t => bumpCount a (yKeyStr t)) acc
    | _ => acc) []
  sortCmp (fun a b => (b.2 : Int) - (a.2 : Int)) tagCounts

/-- Model of `BlogProcessor.getCategoriesWithCounts(includeDrafts)`. -/
def getCategoriesWithCounts (cfg : BlogExtractionConfig) (yl : Str → Option Fm)
    (files : List (Str × Str)) (includeDrafts : Bool) : List (Str × Nat) :=
  let blogs := getAllBlogMeta cfg yl files { includeDrafts := some includeDrafts }
  let categoryCounts := blogs.foldl (fun acc blog =>
    if optTruthy blog.category then bumpCount acc (yKeyStr (blog.category.getD nullV))
    else acc) []
  sortCmp (fun a b => (b.2 : Int) - (a.2 : Int)) categoryCounts

/-- Model of `BlogStats` (count mappings as insertion-ordered association
lists). -/
structure BlogStats where
  totalPosts : Nat
  publishedPosts : Nat
  draftPosts : Nat
  featuredPosts : Nat
  totalTags : Nat
  totalCategories : Nat
  postsWithLocation : Nat
  postsByCategory : List (Str × Nat)
  postsByAuthor : List (Str × Nat)
  recentPosts : Nat

/-- Model of `BlogProcessor.getBlogStats()`; `nowMs` models the current instant
(`new Date()`), and the 30-day window is 30 × 86 400 000 ms. -/
def getBlogStats (cfg : BlogExtractionConfig) (yl : Str → Option Fm)
    (files : List (Str × Str)) (nowMs : Int) : BlogStats :=
  let allBlogs := getAllBlogMeta cfg yl files { includeDrafts := some true }
  let publishedBlogs := allBlogs.filter fun b => !yTruthy b.draft
  let draftBlogs := allBlogs.filter fun b => yTruthy b.draft
  let featuredBlogs := allBlogs.filter fun b => yTruthy b.featured
  let blogsWithLocation := allBlogs.filter fun b => optTruthy b.location
  let tagsWithCounts := getTagsWithCounts cfg yl files true
  let categoriesWithCounts := getCategoriesWithCounts cfg yl files true
  let postsByAuthor := allBlogs.foldl (fun acc b =>
    if optTruthy b.author then bumpCount acc (yKeyStr (b.author.getD nullV))
    else acc) []
  let thirtyDaysAgo : Int := nowMs - 2592000000
  let recentPosts := (allBlogs.filter fun b =>
    if !optTruthy b.date then false
    else
      match b.date.bind jsDateVal with
      | some t => thirtyDaysAgo ≤ t
      | none => false).length
  { totalPosts := allBlogs.length
    publishedPosts := publishedBlogs.length
    draftPosts := draftBlogs.length
    featuredPosts := featuredBlogs.length
    totalTags := tagsWithCounts.length
    totalCategories := categoriesWithCounts.length
    postsWithLocation := blogsWithLocation.length
    postsByCategory := categoriesWithCounts
    postsByAuthor := postsByAuthor
    recentPosts := recentPosts }

end BlogProcessor

/-! ## Model YAML codec

Modelled from the spec: the metadata block "must decode under a
YAML-compatible grammar into a key/value mapping (scalars, nested
mappings, and sequences of scalars)".  The actual codec is the external
`js-yaml` library; this model covers a concrete fragment (one binding
per line, scalar values, flow sequences and flow mappings of scalars)
and is used to instantiate the codec parameters on concrete inputs. -/

/-- Model of `-?[0-9]+`. -/
def intLike (s : Str) : Bool :=
  match s with
  | '-' :: rest => !rest.isEmpty && rest.all Char.isDigit
  | _ => !s.isEmpty && s.all Char.isDigit

def parseIntStr (s : Str) : Int :=
  match s with
  | '-' :: rest => -(digitsToNat rest : Int)
  | _ => (digitsToNat s : Int)

/-- Decode a trimmed scalar token: null / booleans / integers /
double-quoted strings / plain strings. -/
def parseScalarFlat (s : Str) : Option YVal :=
  if s.isEmpty then some nullV
  else if s = sOf ("null") || s = sOf ("~") then some nullV
  else if s = sOf ("true") then some (boolV true)
  else if s = sOf ("false") then some (boolV false)
  else if intLike s then some (numV (parseIntStr s))
  else
    match s with
    | '"' :: rest =>
      if rest.getLast? = some '"' then some (strV (rest.take (rest.length - 1)))
      else none
    | _ => some (strV s)

/-- Split at the first occurrence of `c`. -/
def splitAtChar (c : Char) : Str → Option (Str × Str)
  | [] => none
  | x :: xs =>
    if x = c then some ([], xs)
    else (splitAtChar c xs).map fun p => (x :: p.1, p.2)

/-- Sequence a list of optional values. -/
def seqOpt {α : Type} : List (Option α) → Option (List α)
  | [] => some []
  | o :: os => o.bind fun x => (seqOpt os).map fun xs => x :: xs

/-- One entry `k: v` of a flow mapping. -/
def parseFlowPair (piece : Str) : Option (Str × YVal) :=
  match splitAtChar ':' (jsTrim piece) with
  | none => none
  | some (k, v) =>
    let key := jsTrim k
    if key.isEmpty then none
    else (parseScalarFlat (jsTrim v)).map fun val => (key, val)

/-- Decode a trimmed value token: flow sequence, flow mapping, or
scalar. -/
def parseScalar (s : Str) : Option YVal :=
  match s with
  | '[' :: rest =>
    if rest.getLast? = some ']' then
      let inner := rest.take (rest.length - 1)
      if (jsTrim inner).isEmpty then some (listV [])
      else (seqOpt ((inner.splitOn ',').map fun p => parseScalarFlat (jsTrim p))).map listV
    else none
  | '\x7b' :: rest =>
    if rest.getLast? = some '\x7d' then
      let inner := rest.take (rest.length - 1)
      if (jsTrim inner).isEmpty then some (mapV [])
      else (seqOpt ((inner.splitOn ',').map parseFlowPair)).map mapV
    else none
  | _ => parseScalarFlat s

/-- One line of the metadata block: `none` = decode error, `some none` =
blank line, `some (some kv)` = a binding. -/
def parseLine (l : Str) : Option (Option (Str × YVal)) :=
  let t := jsTrim l
  if t.isEmpty then some none
  else
    match splitAtChar ':' t with
    | none => none
    | some (k, v) =>
      let key := jsTrim k
      if key.isEmpty then none
      else (parseScalar (jsTrim v)).map fun val => some (key, val)

/-- The model decoder (`yaml.load`, with `none` modelling a thrown
parse exception; an empty block decodes to the empty mapping, matching
`yaml.load(...) || {}`). -/
def yamlLoadModel (s : Str) : Option Fm :=
  (s.splitOn '\n').foldl
    (fun acc l =>
      acc.bind fun m =>
        (parseLine l).map fun r =>
          match r with
          | none => m
          | some kv => fmSet m kv.1 kv.2)
    (some [])

mutual

/-- The model encoder's scalar/value serialization (flow style for
sequences and mappings). -/
def dumpScalar : YVal → Str
  | nullV => sOf ("null")
  | boolV true => sOf ("true")
  | boolV false => sOf ("false")
  | numV n => sOf (toString n)
  | strV s => s
  | listV xs => '[' :: (dumpScalarList xs ++ [']'])
  | mapV m => '\x7b' :: (dumpScalarMap m ++ ['\x7d'])

def dumpScalarList : List YVal → Str
  | [] => []
  | [x] => dumpScalar x
  | x :: y :: xs => dumpScalar x ++ sOf (", ") ++ dumpScalarList (y :: xs)

def dumpScalarMap : List (Str × YVal) → Str
  | [] => []
  | [kv] => kv.1 ++ sOf (": ") ++ dumpScalar kv.2
  | kv :: kv' :: rest =>
    kv.1 ++ sOf (": ") ++ dumpScalar kv.2 ++ sOf (", ") ++ dumpScalarMap (kv' :: rest)

end

/-- The model encoder (`yaml.dump`): one `key: value` line per binding,
each line newline-terminated. -/
def yamlDumpModel (m : Fm) : Str :=
  List.flatten (m.map fun kv => kv.1 ++ sOf (": ") ++ dumpScalar kv.2 ++ sOf ("\n"))

/-! ## Definitions used in theorem statements -/

/-- The key list of a frontmatter object. -/
def keysOf (m : Fm) : List Str := m.map Prod.fst

/-- The per-value effect of the `tags` normalization block. -/
def normTagVal (v : YVal) : YVal :=
  if yTruthy v && !yIsList v then
    match v with
    | strV s => listV (((s.splitOn ',').map jsTrim).map strV)
    | _ => listV []
  else v

/-- The per-value effect of the `date` normalization block. -/
def normDateVal (v : YVal) : YVal :=
  if yTruthy v && !yIsStr v then strV (yKeyStr v) else v

/-- The per-value effect of the `draft`/`featured` normalization
blocks. -/
def normBoolVal (v : YVal) : YVal :=
  if !yIsBool v then boolV (yTruthy v) else v

/-- Shape invariant of normalized frontmatter: `draft` and `featured`
are booleans, `tags` is a list or falsy, a truthy `date` is a string,
and keys are duplicate-free. -/
def NormalFm (m : Fm) : Prop :=
  (∃ b, fmGet m draftK = some (boolV b)) ∧
  (∃ b, fmGet m featuredK = some (boolV b)) ∧
  (∃ t, fmGet m tagsK = some t ∧ (yIsList t || !yTruthy t) = true) ∧
  (∀ v, fmGet m dateK = some v → yTruthy v = true → yIsStr v = true) ∧
  (keysOf m).Nodup

/-- The number of tag occurrences a record contributes (its tag array's
length; a non-array contributes none). -/
def tagLen (b : BlogMeta) : Nat :=
  match b.tags with
  | listV xs => xs.length
  | _ => 0

/-- A sample record: no date, a location whose coordinates are
`lat: 0, lng: 0` (present but falsy). -/
def sampleBlog : BlogMeta :=
  { slug := sOf ("p")
    title := strV (sOf ("t"))
    date := none
    author := none
    tags := listV []
    category := none
    description := strV []
    location := some (mapV [(coordinatesK, mapV [(latK, numV 0), (lngK, numV 0)])])
    featured := boolV false
    draft := boolV false
    filePath := sOf ("p.md")
    hasFrontmatter := true
    extras := [] }

/-! ## Association-list lemmas -/

lemma fmGet_fmSet (m : Fm) (k : Str) (v : YVal) (k' : Str) :
    fmGet (fmSet m k v) k' = if k' = k then some v else fmGet m k' := by
  induction m with
  | nil => by_cases h : k' = k <;> simp [fmSet, fmGet, h]
  | cons kv rest ih =>
    obtain ⟨k₀, v₀⟩ := kv
    by_cases h₀ : k₀ = k
    · subst h₀
      by_cases h : k' = k₀ <;> simp [fmSet, fmGet, h]
    · by_cases h : k' = k₀
      · subst h
        have hne : ¬k' = k := fun hk => h₀ (hk ▸ rfl)
        simp [fmSet, fmGet, h₀, hne]
      · simp [fmSet, fmGet, h₀, h, ih]

lemma fmGet_append (l₁ l₂ : Fm) (k : Str) :
    fmGet (l₁ ++ l₂) k =
      match fmGet l₁ k with
      | some v => some v
      | none => fmGet l₂ k := by
  induction l₁ with
  | nil => simp [fmGet]
  | cons kv rest ih =>
    obtain ⟨k₀, v₀⟩ := kv
    by_cases h : k = k₀ <;> simp [fmGet, h, ih]

lemma fmGet_fmSpread (a b : Fm) (k : Str) :
    fmGet (fmSpread a b) k =
      match fmGet b.reverse k with
      | some v => some v
      | none => fmGet a k := by
  induction b generalizing a with
  | nil => simp [fmSpread, fmGet]
  | cons kv rest ih =>
    obtain ⟨k₀, v₀⟩ := kv
    have hstep : fmSpread a ((k₀, v₀) :: rest) = fmSpread (fmSet a k₀ v₀) rest := rfl
    rw [hstep, ih]
    rw [show ((k₀, v₀) :: rest).reverse = rest.reverse ++ [(k₀, v₀)] by simp,
      fmGet_append]
    rcases hr : fmGet rest.reverse k with _ | v
    · rw [fmGet_fmSet]
      by_cases h : k = k₀ <;> simp [fmGet, h]
    · rfl

lemma fmGet_eq_none_iff (m : Fm) (k : Str) :
    fmGet m k = none ↔ k ∉ keysOf m := by
  induction m with
  | nil => simp [fmGet, keysOf]
  | cons kv rest ih =>
    obtain ⟨k₀, v₀⟩ := kv
    by_cases h : k = k₀ <;> simp [fmGet, h, ih, keysOf]

lemma keysOf_fmSet (m : Fm) (k : Str) (v : YVal) :
    keysOf (fmSet m k v) = if k ∈ keysOf m then keysOf m else keysOf m ++ [k] := by
  induction m with
  | nil => simp [fmSet, keysOf]
  | cons kv rest ih =>
    obtain ⟨k₀, v₀⟩ := kv
    by_cases h₀ : k₀ = k
    · subst h₀
      simp [fmSet, keysOf]
    · have hne : k ≠ k₀ := fun hk => h₀ hk.symm
      have ih' : List.map Prod.fst (fmSet rest k v) =
          if k ∈ List.map Prod.fst rest then List.map Prod.fst rest
          else List.map Prod.fst rest ++ [k] := by simpa [keysOf] using ih
      by_cases hmem : k ∈ List.map Prod.fst rest <;>
        simp [fmSet, h₀, keysOf, hne, hmem, ih']

lemma nodup_keysOf_fmSet (m : Fm) (k : Str) (v : YVal)
    (h : (keysOf m).Nodup) : (keysOf (fmSet m k v)).Nodup := by
  rw [keysOf_fmSet]
  by_cases hmem : k ∈ keysOf m
  · simpa [hmem]
  · simpa [hmem] using List.Nodup.append h (List.nodup_singleton k)
      (by simpa using hmem)

lemma nodup_keysOf_fmSpread (a b : Fm) (h : (keysOf a).Nodup) :
    (keysOf (fmSpread a b)).Nodup := by
  induction b generalizing a with
  | nil => exact h
  | cons kv rest ih =>
    exact ih (fmSet a kv.1 kv.2) (nodup_keysOf_fmSet a kv.1 kv.2 h)

lemma fmGet_reverse_of_nodup (m : Fm) (h : (keysOf m).Nodup) (k : Str) :
    fmGet m.reverse k = fmGet m k := by
  induction m with
  | nil => rfl
  | cons kv rest ih =>
    obtain ⟨k₀, v₀⟩ := kv
    rw [show ((k₀, v₀) :: rest).reverse = rest.reverse ++ [(k₀, v₀)] by simp,
      fmGet_append]
    have hnd : (keysOf rest).Nodup := (List.nodup_cons.mp (by simpa [keysOf] using h)).2
    have hk₀ : k₀ ∉ keysOf rest := (List.nodup_cons.mp (by simpa [keysOf] using h)).1
    rw [ih hnd]
    by_cases hk : k = k₀
    · subst hk
      have hnone : fmGet rest k = none := (fmGet_eq_none_iff rest k).mpr hk₀
      simp [hnone, fmGet]
    · rcases hr : fmGet rest k with _ | v <;> simp [fmGet, hk, hr]

/-! ## Normalization lemmas -/

open FrontmatterParser

lemma normTagsStep_get (n : Fm) (k : Str) :
    fmGet (normTagsStep n) k =
      if k = tagsK then (fmGet n tagsK).map normTagVal else fmGet n k := by
  rcases h : fmGet n tagsK with _ | tv
  · by_cases hk : k = tagsK <;> simp [normTagsStep, h, hk]
  · cases hc : (yTruthy tv && !yIsList tv)
    · by_cases hk : k = tagsK <;> simp [normTagsStep, normTagVal, h, hc, hk]
    · cases tv <;> by_cases hk : k = tagsK <;>
        simp_all [normTagsStep, normTagVal, fmGet_fmSet, yIsList, yTruthy]

lemma normDateStep_get (n : Fm) (k : Str) :
    fmGet (normDateStep n) k =
      if k = dateK then (fmGet n dateK).map normDateVal else fmGet n k := by
  rcases h : fmGet n dateK with _ | dv
  · by_cases hk : k = dateK <;> simp [normDateStep, h, hk]
  · cases hc : (yTruthy dv && !yIsStr dv) <;>
      by_cases hk : k = dateK <;>
      simp [normDateStep, normDateVal, h, hc, hk, fmGet_fmSet]

lemma normDraftStep_get (n : Fm) (k : Str) :
    fmGet (normDraftStep n) k =
      if k = draftK then (fmGet n draftK).map normBoolVal else fmGet n k := by
  rcases h : fmGet n draftK with _ | dv
  · by_cases hk : k = draftK <;> simp [normDraftStep, h, hk]
  · cases hc : (!yIsBool dv) <;>
      by_cases hk : k = draftK <;>
      simp [normDraftStep, normBoolVal, h, hc, hk, fmGet_fmSet]

lemma normFeaturedStep_get (n : Fm) (k : Str) :
    fmGet (normFeaturedStep n) k =
      if k = featuredK then (fmGet n featuredK).map normBoolVal else fmGet n k := by
  rcases h : fmGet n featuredK with _ | fv
  · by_cases hk : k = featuredK <;> simp [normFeaturedStep, h, hk]
  · cases hc : (!yIsBool fv) <;>
      by_cases hk : k = featuredK <;>
      simp [normFeaturedStep, normBoolVal, h, hc, hk, fmGet_fmSet]

/-- Master description of `normalizeFrontmatter`'s lookups in terms of
the merged input `fmSpread DEFAULT_FRONTMATTER d`. -/
lemma normalize_get (d : Fm) (k : Str) :
    fmGet (normalizeFrontmatter d) k =
      if k = tagsK then (fmGet (fmSpread DEFAULT_FRONTMATTER d) tagsK).map normTagVal
      else if k = dateK then
        (fmGet (fmSpread DEFAULT_FRONTMATTER d) dateK).map normDateVal
      else if k = draftK then
        (fmGet (fmSpread DEFAULT_FRONTMATTER d) draftK).map normBoolVal
      else if k = featuredK then
        (fmGet (fmSpread DEFAULT_FRONTMATTER d) featuredK).map normBoolVal
      else fmGet (fmSpread DEFAULT_FRONTMATTER d) k := by
  have htd : ¬tagsK = dateK := by decide
  have htdr : ¬tagsK = draftK := by decide
  have htf : ¬tagsK = featuredK := by decide
  have hddr : ¬dateK = draftK := by decide
  have hdf : ¬dateK = featuredK := by decide
  have hdrf : ¬draftK = featuredK := by decide
  have hdt : ¬dateK = tagsK := fun h => htd h.symm
  have hdrt : ¬draftK = tagsK := fun h => htdr h.symm
  have hft : ¬featuredK = tagsK := fun h => htf h.symm
  have hdrd : ¬draftK = dateK := fun h => hddr h.symm
  have hfd : ¬featuredK = dateK := fun h => hdf h.symm
  have hfdr : ¬featuredK = draftK := fun h => hdrf h.symm
  simp only [normalizeFrontmatter, normFeaturedStep_get, normDraftStep_get,
    normDateStep_get, normTagsStep_get]
  by_cases h1 : k = tagsK
  · subst h1
    simp [htd, htdr, htf, hdt, hdrt, hft, hdrd, hfd, hfdr]
  · by_cases h2 : k = dateK
    · subst h2
      simp [htd, hddr, hdf, hdt, hdrt, hft, hdrd, hfd, hfdr]
    · by_cases h3 : k = draftK
      · subst h3
        simp [hdrt, hdrd, hdrf, hfdr]
      · by_cases h4 : k = featuredK
        · subst h4
          simp [hft, hfd, hfdr]
        · simp [h1, h2, h3, h4]

lemma nodup_keysOf_normTagsStep (n : Fm) (h : (keysOf n).Nodup) :
    (keysOf (normTagsStep n)).Nodup := by
  rw [normTagsStep]
  rcases fmGet n tagsK with _ | tv
  · exact h
  · by_cases hc : (yTruthy tv && !yIsList tv) = true
    · cases tv <;> simp_all <;> exact nodup_keysOf_fmSet _ _ _ h
    · simp only [hc, if_false]
      exact h

lemma nodup_keysOf_normDateStep (n : Fm) (h : (keysOf n).Nodup) :
    (keysOf (normDateStep n)).Nodup := by
  rw [normDateStep]
  rcases fmGet n dateK with _ | dv
  · exact h
  · by_cases hc : (yTruthy dv && !yIsStr dv) = true <;>
      simp only [hc, if_true, if_false] <;>
      first
      | exact nodup_keysOf_fmSet _ _ _ h
      | exact h

lemma nodup_keysOf_normDraftStep (n : Fm) (h : (keysOf n).Nodup) :
    (keysOf (normDraftStep n)).Nodup := by
  rw [normDraftStep]
  rcases fmGet n draftK with _ | dv
  · exact h
  · by_cases hc : (!yIsBool dv) = true <;>
      simp only [hc, if_true, if_false] <;>
      first
      | exact nodup_keysOf_fmSet _ _ _ h
      | exact h

lemma nodup_keysOf_normFeaturedStep (n : Fm) (h : (keysOf n).Nodup) :
    (keysOf (normFeaturedStep n)).Nodup := by
  rw [normFeaturedStep]
  rcases fmGet n featuredK with _ | fv
  · exact h
  · by_cases hc : (!yIsBool fv) = true <;>
      simp only [hc, if_true, if_false] <;>
      first
      | exact nodup_keysOf_fmSet _ _ _ h
      | exact h

lemma nodup_keysOf_normalize (d : Fm) :
    (keysOf (normalizeFrontmatter d)).Nodup := by
  have h0 : (keysOf DEFAULT_FRONTMATTER).Nodup := by decide
  exact nodup_keysOf_normFeaturedStep _ (nodup_keysOf_normDraftStep _
    (nodup_keysOf_normDateStep _ (nodup_keysOf_normTagsStep _
      (nodup_keysOf_fmSpread _ _ h0))))

lemma normBoolVal_shape (v : YVal) : ∃ b, normBoolVal v = boolV b := by
  cases v with
  | boolV b => exact ⟨b, rfl⟩
  | nullV => exact ⟨false, rfl⟩
  | numV n => exact ⟨yTruthy (numV n), rfl⟩
  | strV s => exact ⟨yTruthy (strV s), rfl⟩
  | listV xs => exact ⟨true, rfl⟩
  | mapV m => exact ⟨true, rfl⟩

lemma normTagVal_shape (v : YVal) :
    (yIsList (normTagVal v) || !yTruthy (normTagVal v)) = true := by
  cases hc : (yTruthy v && !yIsList v)
  · have hv : normTagVal v = v := by simp [normTagVal, hc]
    rw [hv]
    cases hl : yIsList v
    · have : yTruthy v = false := by
        rcases Bool.and_eq_false_iff.mp hc with h | h
        · exact h
        · rw [hl] at h
          simp at h
      simp [this]
    · simp [hl]
  · cases v <;> simp_all [normTagVal, yIsList, yTruthy]

lemma normDateVal_shape (v : YVal) :
    yTruthy (normDateVal v) = true → yIsStr (normDateVal v) = true := by
  cases hc : (yTruthy v && !yIsStr v)
  · have hv : normDateVal v = v := by simp [normDateVal, hc]
    rw [hv]
    intro ht
    rcases Bool.and_eq_false_iff.mp hc with h | h
    · rw [ht] at h
      cases h
    · simpa using h
  · have hv : normDateVal v = strV (yKeyStr v) := by simp [normDateVal, hc]
    rw [hv]
    intro _
    rfl

lemma normTagVal_id (t : YVal) (h : (yIsList t || !yTruthy t) = true) :
    normTagVal t = t := by
  cases hl : yIsList t
  · have ht : yTruthy t = false := by
      rw [hl] at h
      simpa using h
    simp [normTagVal, ht]
  · simp [normTagVal, hl]

lemma normDateVal_id (v : YVal) (h : yTruthy v = true → yIsStr v = true) :
    normDateVal v = v := by
  cases ht : yTruthy v
  · simp [normDateVal, ht]
  · simp [normDateVal, ht, h ht]

lemma fmGet_fmSpread_default_some (d : Fm) (k : Str) (v₀ : YVal)
    (hd : fmGet DEFAULT_FRONTMATTER k = some v₀) :
    ∃ v, fmGet (fmSpread DEFAULT_FRONTMATTER d) k = some v := by
  rcases h : fmGet d.reverse k with _ | v
  · exact ⟨v₀, by rw [fmGet_fmSpread, h]; exact hd⟩
  · exact ⟨v, by rw [fmGet_fmSpread, h]⟩

/-- Model of `normalizeFrontmatter` always produces a `NormalFm`. -/
lemma normal_normalize (d : Fm) : NormalFm (normalizeFrontmatter d) := by
  have hdr : ¬draftK = tagsK := by decide
  have hdr2 : ¬draftK = dateK := by decide
  have hfe : ¬featuredK = tagsK := by decide
  have hfe2 : ¬featuredK = dateK := by decide
  have hfe3 : ¬featuredK = draftK := by decide
  have hda : ¬dateK = tagsK := by decide
  refine ⟨?_, ?_, ?_, ?_, nodup_keysOf_normalize d⟩
  · obtain ⟨v, hv⟩ := fmGet_fmSpread_default_some d draftK (boolV false) rfl
    obtain ⟨b, hb⟩ := normBoolVal_shape v
    exact ⟨b, by rw [normalize_get]; simp [hdr, hdr2, hv, hb]⟩
  · obtain ⟨v, hv⟩ := fmGet_fmSpread_default_some d featuredK (boolV false) rfl
    obtain ⟨b, hb⟩ := normBoolVal_shape v
    exact ⟨b, by rw [normalize_get]; simp [hfe, hfe2, hfe3, hv, hb]⟩
  · obtain ⟨v, hv⟩ := fmGet_fmSpread_default_some d tagsK (listV []) rfl
    refine ⟨normTagVal v, ?_, normTagVal_shape v⟩
    rw [normalize_get]
    simp [hv]
  · intro v hv
    rw [normalize_get] at hv
    rcases hg : fmGet (fmSpread DEFAULT_FRONTMATTER d) dateK with _ | w <;>
      simp [hda, hg] at hv
    rw [← hv]
    exact normDateVal_shape w

/-- For a `NormalFm`, merging the defaults underneath changes no
lookup. -/
lemma spread_equiv_of_normal (m : Fm) (h : NormalFm m) (k : Str) :
    fmGet (fmSpread DEFAULT_FRONTMATTER m) k = fmGet m k := by
  obtain ⟨⟨bd, hd⟩, ⟨bf, hf⟩, ⟨t, ht, _⟩, _, hnod⟩ := h
  rw [fmGet_fmSpread, fmGet_reverse_of_nodup m hnod]
  rcases hk : fmGet m k with _ | v
  · have h1 : ¬k = draftK := fun he => by rw [he, hd] at hk; cases hk
    have h2 : ¬k = featuredK := fun he => by rw [he, hf] at hk; cases hk
    have h3 : ¬k = tagsK := fun he => by rw [he, ht] at hk; cases hk
    simp [DEFAULT_FRONTMATTER, fmGet, h1, h2, h3]
  · rfl

/-- Normalizing a `NormalFm` (after re-merging the defaults, as `parse`
does) changes no lookup: normalization is idempotent field-for-field. -/
lemma normalize_of_normal (m : Fm) (h : NormalFm m) :
    fmEquiv (normalizeFrontmatter (fmSpread DEFAULT_FRONTMATTER m)) m := by
  intro k
  obtain ⟨⟨bd, hd⟩, ⟨bf, hf⟩, ⟨t, ht, htshape⟩, hdate, hnod⟩ := h
  have hs : ∀ k', fmGet (fmSpread DEFAULT_FRONTMATTER m) k' = fmGet m k' :=
    spread_equiv_of_normal m ⟨⟨bd, hd⟩, ⟨bf, hf⟩, ⟨t, ht, htshape⟩, hdate, hnod⟩
  have hs2 : ∀ k',
      fmGet (fmSpread DEFAULT_FRONTMATTER (fmSpread DEFAULT_FRONTMATTER m)) k' =
        fmGet m k' := by
    intro k'
    rw [spread_equiv_of_normal (fmSpread DEFAULT_FRONTMATTER m) ?_ k', hs k']
    refine ⟨⟨bd, by rw [hs]; exact hd⟩, ⟨bf, by rw [hs]; exact hf⟩,
      ⟨t, by rw [hs]; exact ht, htshape⟩,
      fun v hv => by rw [hs] at hv; exact hdate v hv,
      nodup_keysOf_fmSpread _ _ (by decide)⟩
  rw [normalize_get]
  by_cases h1 : k = tagsK
  · subst h1
    rw [if_pos rfl, hs2, ht]
    simp [normTagVal_id t htshape]
  · rw [if_neg h1]
    by_cases h2 : k = dateK
    · subst h2
      rw [if_pos rfl, hs2]
      rcases hv : fmGet m dateK with _ | v
      · rfl
      · simp [normDateVal_id v (hdate v hv)]
    · rw [if_neg h2]
      by_cases h3 : k = draftK
      · subst h3
        rw [if_pos rfl, hs2, hd]
        simp [normBoolVal, yIsBool]
      · rw [if_neg h3]
        by_cases h4 : k = featuredK
        · subst h4
          rw [if_pos rfl, hs2, hf]
          simp [normBoolVal, yIsBool]
        · rw [if_neg h4, hs2]

/-! ## Sorting lemmas -/

lemma insertCmp_perm {α : Type} (c : α → α → Int) (x : α) (l : List α) :
    (insertCmp c x l).Perm (x :: l) := by
  induction l with
  | nil => exact List.Perm.refl _
  | cons y ys ih =>
    by_cases h : c x y ≤ 0
    · rw [insertCmp, if_pos h]
    · rw [insertCmp, if_neg h]
      exact (ih.cons y).trans (List.Perm.swap x y ys)

lemma sortCmp_perm {α : Type} (c : α → α → Int) (l : List α) :
    (sortCmp c l).Perm l := by
  induction l with
  | nil => exact List.Perm.refl _
  | cons x xs ih => exact (insertCmp_perm c x (sortCmp c xs)).trans (ih.cons x)

lemma mem_sortCmp {α : Type} (c : α → α → Int) (l : List α) (a : α) :
    a ∈ sortCmp c l ↔ a ∈ l :=
  (sortCmp_perm c l).mem_iff

lemma insertCmp_pairwise {α : Type} (c : α → α → Int) (P : α → Prop)
    (htot : ∀ a b, P a → P b → c a b ≤ 0 ∨ c b a ≤ 0)
    (htrans : ∀ a b d, P a → P b → P d → c a b ≤ 0 → c b d ≤ 0 → c a d ≤ 0)
    (x : α) (l : List α) (hx : P x) (hl : ∀ y ∈ l, P y)
    (h : l.Pairwise fun a b => c a b ≤ 0) :
    (insertCmp c x l).Pairwise fun a b => c a b ≤ 0 := by
  induction l with
  | nil => simp [insertCmp]
  | cons y ys ih =>
    have hy : P y := hl y (List.mem_cons_self y ys)
    have hys : ∀ z ∈ ys, P z := fun z hz => hl z (List.mem_cons_of_mem y hz)
    have hpys : ys.Pairwise fun a b => c a b ≤ 0 := (List.pairwise_cons.mp h).2
    have hyz : ∀ z ∈ ys, c y z ≤ 0 := (List.pairwise_cons.mp h).1
    by_cases hxy : c x y ≤ 0
    · rw [insertCmp, if_pos hxy]
      refine List.Pairwise.cons ?_ h
      intro z hz
      rcases List.mem_cons.mp hz with rfl | hz'
      · exact hxy
      · exact htrans x y z hx hy (hys z hz') hxy (hyz z hz')
    · rw [insertCmp, if_neg hxy]
      have hyx : c y x ≤ 0 := (htot x y hx hy).resolve_left hxy
      refine List.Pairwise.cons ?_ (ih hys hpys)
      intro z hz
      rcases (insertCmp_perm c x ys).mem_iff.mp hz |> List.mem_cons.mp with rfl | hz'
      · exact hyx
      · exact hyz z hz'

lemma sortCmp_pairwise {α : Type} (c : α → α → Int) (P : α → Prop)
    (htot : ∀ a b, P a → P b → c a b ≤ 0 ∨ c b a ≤ 0)
    (htrans : ∀ a b d, P a → P b → P d → c a b ≤ 0 → c b d ≤ 0 → c a d ≤ 0)
    (l : List α) (hl : ∀ x ∈ l, P x) :
    (sortCmp c l).Pairwise fun a b => c a b ≤ 0 := by
  induction l with
  | nil => simp [sortCmp]
  | cons x xs ih =>
    exact insertCmp_pairwise c P htot htrans x (sortCmp c xs)
      (hl x (List.mem_cons_self x xs))
      (fun y hy => hl y (List.mem_cons_of_mem x ((mem_sortCmp c xs y).mp hy)))
      (ih fun y hy => hl y (List.mem_cons_of_mem x hy))

/-! ## Pipeline lemmas -/

lemma passesFilter_empty (b : BlogMeta) : passesFilter b {} = true := rfl

lemma processFile_some (cfg : BlogExtractionConfig) (yl : Str → Option Fm)
    (opts : ResolvedOptions) (pc : Str × Str) (m : BlogMeta)
    (h : BlogProcessor.processFile cfg yl opts pc = some m) :
    m = BlogExtractor.extractMeta cfg yl pc.2 pc.1 ∧
    (!opts.includeDrafts && yTruthy m.draft) = false ∧
    passesFilter m opts.filterBy = true := by
  revert h
  simp only [BlogProcessor.processFile]
  by_cases h1 : (!opts.includeDrafts &&
      yTruthy (BlogExtractor.extractMeta cfg yl pc.2 pc.1).draft) = true
  · simp [h1]
  · by_cases h2 : (decide (opts.requiredFields.length > 0) &&
        !validateFields (metaGet (BlogExtractor.extractMeta cfg yl pc.2 pc.1))
          opts.requiredFields) = true
    · simp [h1, h2]
    · by_cases h3 :
          (!passesFilter (BlogExtractor.extractMeta cfg yl pc.2 pc.1) opts.filterBy) = true
      · simp [h1, h2, h3]
      · simp only [h1, h2, h3, Bool.false_eq_true, if_false, Option.some.injEq]
        intro hm
        subst hm
        refine ⟨rfl, by simpa using h1, by simpa using h3⟩

lemma mem_getAllBlogMeta (cfg : BlogExtractionConfig) (yl : Str → Option Fm)
    (files : List (Str × Str)) (options : BlogProcessingOptions) (b : BlogMeta)
    (hb : b ∈ BlogProcessor.getAllBlogMeta cfg yl files options) :
    ∃ pc ∈ files,
      BlogProcessor.processFile cfg yl (resolveOptions options) pc = some b := by
  simp only [BlogProcessor.getAllBlogMeta, sortBlogs] at hb
  exact List.mem_filterMap.mp ((mem_sortCmp _ _ b).mp hb)

/-! ## Claim theorems -/

/-- C1 (counterexample): a record with no date, under a filter whose
`dateRange` has a start bound, is *included* in `getAllBlogMeta`'s
result — the claim says it must be excluded. -/
theorem C1_counterexample :
    (BlogProcessor.getAllBlogMeta DEFAULT_CONFIG yamlLoadModel
        [(sOf ("a.md"), sOf ("# T\n\nbody"))]
        { filterBy := some { dateRange := some { start := some (sOf ("2024-01-01")) } } }).map
      (fun b => b.date.isNone) = [true] := by
  decide

/-- C1 (amended): a record with no (truthy) date vacuously passes the
`dateRange` clauses — the filter behaves as if `dateRange` were absent,
so such a record is excluded only if another clause fails. -/
theorem C1_dateRange_no_date (b : BlogMeta) (f : BlogFilterOptions)
    (hdate : optTruthy b.date = false) :
    passesFilter b f = passesFilter b { f with dateRange := none } := by
  rcases f with ⟨t, c, fe, a, hl, dr⟩
  rcases dr with _ | dr
  · rfl
  · simp [passesFilter, hdate]

/-- C1 (witness): the amended claim evaluated on the sample record. -/
theorem C1_witness :
    optTruthy sampleBlog.date = false ∧
    passesFilter sampleBlog { dateRange := some { start := some (sOf ("2024-01-01")) } } =
      passesFilter sampleBlog
        { ({ dateRange := some { start := some (sOf ("2024-01-01")) } } :
            BlogFilterOptions) with dateRange := none } :=
  ⟨rfl, C1_dateRange_no_date sampleBlog _ rfl⟩

/-- C2 (counterexample): for a collection with one record whose location
has a name but no coordinates, `getBlogStats().postsWithLocation` is 1
while the number of records with coordinates is 0 — the claim's equality
fails. -/
theorem C2_counterexample :
    (BlogProcessor.getBlogStats DEFAULT_CONFIG yamlLoadModel
        [(sOf ("a.md"), sOf ("---\nlocation: \x7bname: Sydney\x7d\n---\nA"))]
        0).postsWithLocation ≠
      (BlogProcessor.getAllBlogMeta DEFAULT_CONFIG yamlLoadModel
        [(sOf ("a.md"), sOf ("---\nlocation: \x7bname: Sydney\x7d\n---\nA"))]
        { includeDrafts := some true }).countP hasCoordinates := by
  decide

/-- C2 (amended): `postsWithLocation` equals the number of records (over
the full set including drafts) whose `location` field is present and
truthy; coordinates are not consulted. -/
theorem C2_postsWithLocation (cfg : BlogExtractionConfig) (yl : Str → Option Fm)
    (files : List (Str × Str)) (nowMs : Int) :
    (BlogProcessor.getBlogStats cfg yl files nowMs).postsWithLocation =
      (BlogProcessor.getAllBlogMeta cfg yl files
        { includeDrafts := some true }).countP (fun b => optTruthy b.location) := by
  simp [BlogProcessor.getBlogStats, List.countP_eq_length_filter]

/-- C3 (counterexample): a record whose `location.coordinates` is
`{lat: 0, lng: 0}` passes the `hasLocation: true` filter even though its
"has coordinates" boolean is false — the claimed equivalence with
`hasCoordinates` fails. -/
theorem C3_counterexample :
    passesFilter sampleBlog { hasLocation := some true } = true ∧
    hasCoordinates sampleBlog = false := by
  exact ⟨rfl, rfl⟩

/-- C3 (amended): the `hasLocation` clause compares the filter value
with the truthiness of `location?.coordinates` (the presence of the
coordinates object), not with `hasCoordinates` (which also requires
truthy `lat` and `lng`). -/
theorem C3_hasLocation_filter (b : BlogMeta) (fv : Bool) :
    passesFilter b { hasLocation := some fv } =
      (optTruthy (yGetOpt b.location coordinatesK) == fv) := by
  simp [passesFilter]

/-- C7: whenever the trimmed input does not start with `---`, or no
closing `\n---` is found after position 3, or the delimited block fails
to decode, `parse` returns `hasFrontmatter = false`, the default
frontmatter, and the original untrimmed input as content (and, being a
total function, no exception escapes). -/
theorem C7_parse_fallback (yl : Str → Option Fm) (raw : Str)
    (h : (sOf ("---")).isPrefixOf (jsTrim raw) = false ∨
         jsIndexOfFrom (jsTrim raw) (sOf ("\n---")) 3 = none ∨
         (∀ ft c, splitFM raw = some (ft, c) → yl ft = none)) :
    parse yl raw = ⟨DEFAULT_FRONTMATTER, raw, false⟩ := by
  rcases hs : splitFM raw with _ | ⟨ft, c⟩
  · simp [parse, hs]
  · have hyl : yl ft = none := by
      rcases h with h | h | h
      · simp [splitFM, h] at hs
      · simp [splitFM, h] at hs
      · exact h ft c hs
    simp [parse, hs, hyl]

/-- C7 (witness): the no-delimiter case evaluated on a concrete
input. -/
theorem C7_witness :
    ((sOf ("---")).isPrefixOf (jsTrim (sOf ("hello"))) = false ∨
      jsIndexOfFrom (jsTrim (sOf ("hello"))) (sOf ("\n---")) 3 = none ∨
      (∀ ft c, splitFM (sOf ("hello")) = some (ft, c) → yamlLoadModel ft = none)) ∧
    parse yamlLoadModel (sOf ("hello")) =
      ⟨DEFAULT_FRONTMATTER, sOf ("hello"), false⟩ :=
  ⟨Or.inl (by decide), C7_parse_fallback yamlLoadModel (sOf ("hello")) (Or.inl (by decide))⟩

/-- C8: with `includeDrafts` unset or `false`, no record returned by
`getAllBlogMeta` has `draft = true`. -/
theorem C8_no_drafts (cfg : BlogExtractionConfig) (yl : Str → Option Fm)
    (files : List (Str × Str)) (options : BlogProcessingOptions)
    (h : options.includeDrafts.getD false = false) :
    ∀ b ∈ BlogProcessor.getAllBlogMeta cfg yl files options,
      b.draft ≠ boolV true := by
  intro b hb heq
  obtain ⟨pc, _, hsome⟩ := mem_getAllBlogMeta cfg yl files options b hb
  obtain ⟨_, hskip, _⟩ := processFile_some cfg yl (resolveOptions options) pc b hsome
  rw [show (resolveOptions options).includeDrafts = false from h, heq] at hskip
  simp [yTruthy] at hskip

/-- C8 (witness): evaluated on a collection containing a draft, with the
default options. -/
theorem C8_witness :
    ({} : BlogProcessingOptions).includeDrafts.getD false = false ∧
    ∀ b ∈ BlogProcessor.getAllBlogMeta DEFAULT_CONFIG yamlLoadModel
        [(sOf ("a.md"), sOf ("---\ndraft: true\n---\nA"))] {},
      b.draft ≠ boolV true :=
  ⟨rfl, C8_no_drafts DEFAULT_CONFIG yamlLoadModel _ {} rfl⟩

lemma fmGet_default_none (k : Str) (h1 : ¬k = draftK) (h2 : ¬k = featuredK)
    (h3 : ¬k = tagsK) : fmGet DEFAULT_FRONTMATTER k = none := by
  simp [DEFAULT_FRONTMATTER, fmGet, h1, h2, h3]

lemma spread_default_idem (d : Fm) (k : Str) :
    fmGet (fmSpread DEFAULT_FRONTMATTER (fmSpread DEFAULT_FRONTMATTER d)) k =
      fmGet (fmSpread DEFAULT_FRONTMATTER d) k := by
  rw [fmGet_fmSpread, fmGet_reverse_of_nodup _
    (nodup_keysOf_fmSpread _ _ (by decide))]
  rcases h : fmGet (fmSpread DEFAULT_FRONTMATTER d) k with _ | v
  · by_cases h1 : k = draftK
    · obtain ⟨v, hv⟩ :=
        fmGet_fmSpread_default_some d k (boolV false) (by rw [h1]; rfl)
      rw [hv] at h
      cases h
    · by_cases h2 : k = featuredK
      · obtain ⟨v, hv⟩ :=
          fmGet_fmSpread_default_some d k (boolV false) (by rw [h2]; rfl)
        rw [hv] at h
        cases h
      · by_cases h3 : k = tagsK
        · obtain ⟨v, hv⟩ :=
            fmGet_fmSpread_default_some d k (listV []) (by rw [h3]; rfl)
          rw [hv] at h
          cases h
        · exact fmGet_default_none k h1 h2 h3
  · rfl

/-- C4 (counterexample): a metadata block binding `tags` to `null`
leaves `tags` as `null` in the parsed frontmatter — the claim says any
non-list value becomes the empty list. -/
theorem C4_counterexample :
    fmGet (parse yamlLoadModel (sOf ("---\ntags: null\n---\nx"))).frontmatter tagsK =
      some nullV ∧ nullV ≠ listV [] :=
  ⟨rfl, fun h => YVal.noConfusion h⟩

/-- C4 (amended): when the decoded metadata block (merged over the
defaults) binds `tags` to `v`, the parsed frontmatter's `tags` is
`normTagVal v`: a truthy string is split on commas with each piece
trimmed, a list passes through, any other *truthy* value becomes the
empty list, and a falsy value (`null`, `false`, `0`, `""`) passes
through unchanged. -/
theorem C4_tags_normalization (yl : Str → Option Fm) (raw ft c : Str) (d : Fm)
    (v : YVal) (hsplit : splitFM raw = some (ft, c)) (hdec : yl ft = some d)
    (hv : fmGet (fmSpread DEFAULT_FRONTMATTER d) tagsK = some v) :
    fmGet (parse yl raw).frontmatter tagsK = some (normTagVal v) := by
  have hpf : (parse yl raw).frontmatter =
      normalizeFrontmatter (fmSpread DEFAULT_FRONTMATTER d) := by
    simp [parse, hsplit, hdec]
  rw [hpf, normalize_get, if_pos rfl, spread_default_idem, hv]
  rfl

/-- C4 (witness): the amended claim evaluated on the spec's own example
`tags: a, b,c`, which is normalized to the list `["a", "b", "c"]`. -/
theorem C4_witness :
    splitFM (sOf ("---\ntags: a, b,c\n---\nx")) =
      some (sOf ("tags: a, b,c"), sOf ("x")) ∧
    yamlLoadModel (sOf ("tags: a, b,c")) = some [(tagsK, strV (sOf ("a, b,c")))] ∧
    fmGet (fmSpread DEFAULT_FRONTMATTER [(tagsK, strV (sOf ("a, b,c")))]) tagsK =
      some (strV (sOf ("a, b,c"))) ∧
    normTagVal (strV (sOf ("a, b,c"))) =
      listV [strV (sOf ("a")), strV (sOf ("b")), strV (sOf ("c"))] ∧
    fmGet (parse yamlLoadModel (sOf ("---\ntags: a, b,c\n---\nx"))).frontmatter tagsK =
      some (normTagVal (strV (sOf ("a, b,c")))) :=
  ⟨rfl, rfl, rfl, rfl,
    C4_tags_normalization yamlLoadModel _ _ _ _ _ rfl rfl rfl⟩

lemma yEqBool_true_iff (v : YVal) (b : Bool) :
    yEqBool v b = true ↔ v = boolV b := by
  cases v <;> simp [yEqBool]

lemma passesFilter_featured (m : BlogMeta)
    (h : passesFilter m { featured := some true } = true) :
    m.featured = boolV true := by
  have h' : yEqBool m.featured true = true := by simpa [passesFilter] using h
  exact (yEqBool_true_iff m.featured true).mp h'

lemma blogCmp_date_desc_le (a b : BlogMeta) (x y : Int)
    (ha : dateSortKey a = some x) (hb : dateSortKey b = some y) :
    blogCmp .date .desc a b = y - x := by
  simp [blogCmp, sortComparison, ha, hb]

/-- C5 (counterexample): `getFeaturedBlogs(0)` treats the falsy limit
`0` as "no limit" and returns every featured record, so for a collection
with one featured record the result has more than `0` entries. -/
theorem C5_counterexample :
    ¬ ((BlogProcessor.getFeaturedBlogs DEFAULT_CONFIG yamlLoadModel
        [(sOf ("a.md"), sOf ("---\nfeatured: true\n---\nA"))] (some 0)).length ≤ 0) := by
  decide

/-- C5 (amended): for every `n ≥ 1`, `getFeaturedBlogs(n)` returns at
most `n` records, all with `featured = true`; and provided every
record's date sort key is well defined (date absent, or parseable — an
unparseable date makes the comparator inconsistent), the result is
sorted by date descending.  For `n = 0` the limit is ignored. -/
theorem C5_getFeaturedBlogs (cfg : BlogExtractionConfig) (yl : Str → Option Fm)
    (files : List (Str × Str)) (n : Int) (hn : 1 ≤ n)
    (hd : ∀ pc ∈ files,
      (dateSortKey (BlogExtractor.extractMeta cfg yl pc.2 pc.1)).isSome = true) :
    (BlogProcessor.getFeaturedBlogs cfg yl files (some n)).length ≤ n.toNat ∧
    (∀ b ∈ BlogProcessor.getFeaturedBlogs cfg yl files (some n),
      b.featured = boolV true) ∧
    (BlogProcessor.getFeaturedBlogs cfg yl files (some n)).Pairwise
      (fun a b => (dateSortKey b).getD 0 ≤ (dateSortKey a).getD 0) := by
  have hne : ¬ n = 0 := by omega
  have hnn : ¬ n < 0 := by omega
  set opts : BlogProcessingOptions :=
    { includeDrafts := some false
      filterBy := some { featured := some true }
      sortBy := some .date
      sortOrder := some .desc } with hopts
  have hfe : BlogProcessor.getFeaturedBlogs cfg yl files (some n) =
      (BlogProcessor.getAllBlogMeta cfg yl files opts).take
        (min n.toNat (BlogProcessor.getAllBlogMeta cfg yl files opts).length) := by
    simp [BlogProcessor.getFeaturedBlogs, hne, jsSliceTo, hnn, hopts]
  have hmemP : ∀ b ∈ BlogProcessor.getAllBlogMeta cfg yl files opts,
      (dateSortKey b).isSome = true ∧ b.featured = boolV true := by
    intro b hb
    obtain ⟨pc, hpc, hsome⟩ := mem_getAllBlogMeta cfg yl files opts b hb
    obtain ⟨hbm, _, hpf⟩ := processFile_some cfg yl _ pc b hsome
    refine ⟨hbm ▸ hd pc hpc, passesFilter_featured b ?_⟩
    exact hpf
  refine ⟨?_, ?_, ?_⟩
  · rw [hfe]
    exact le_trans (List.length_take_le _ _) (min_le_left _ _)
  · intro b hb
    rw [hfe] at hb
    exact (hmemP b (List.mem_of_mem_take hb)).2
  · rw [hfe]
    refine List.Pairwise.sublist (List.take_sublist _ _) ?_
    have hpw : (BlogProcessor.getAllBlogMeta cfg yl files opts).Pairwise
        (fun a b => blogCmp .date .desc a b ≤ 0) := by
      simp only [BlogProcessor.getAllBlogMeta, sortBlogs]
      have hres : (resolveOptions opts).sortBy = SortKey.date := rfl
      have hres2 : (resolveOptions opts).sortOrder = SortOrder.desc := rfl
      refine sortCmp_pairwise _ (fun m => (dateSortKey m).isSome = true) ?_ ?_ _ ?_
      · intro a b pa pb
        obtain ⟨x, hx⟩ := Option.isSome_iff_exists.mp pa
        obtain ⟨y, hy⟩ := Option.isSome_iff_exists.mp pb
        rw [blogCmp_date_desc_le a b x y hx hy, blogCmp_date_desc_le b a y x hy hx]
        omega
      · intro a b d pa pb pd
        obtain ⟨x, hx⟩ := Option.isSome_iff_exists.mp pa
        obtain ⟨y, hy⟩ := Option.isSome_iff_exists.mp pb
        obtain ⟨z, hz⟩ := Option.isSome_iff_exists.mp pd
        rw [blogCmp_date_desc_le a b x y hx hy, blogCmp_date_desc_le b d y z hy hz,
          blogCmp_date_desc_le a d x z hx hz]
        omega
      · intro x hx
        obtain ⟨pc, hpc, hsome⟩ := List.mem_filterMap.mp hx
        obtain ⟨hbm, _, _⟩ := processFile_some cfg yl _ pc x hsome
        exact hbm ▸ hd pc hpc
    refine List.Pairwise.imp_of_mem ?_ hpw
    intro a b ha hb hc
    obtain ⟨x, hx⟩ := Option.isSome_iff_exists.mp (hmemP a ha).1
    obtain ⟨y, hy⟩ := Option.isSome_iff_exists.mp (hmemP b hb).1
    rw [blogCmp_date_desc_le a b x y hx hy] at hc
    rw [hx, hy]
    simpa using by omega

/-- C5 (witness): the amended claim evaluated at `n = 1` on a
single-record featured collection with a parseable date. -/
theorem C5_witness :
    (1 ≤ (1 : Int)) ∧
    (∀ pc ∈ [(sOf ("a.md"), sOf ("---\nfeatured: true\ndate: 2024-01-02\n---\nA"))],
      (dateSortKey (BlogExtractor.extractMeta DEFAULT_CONFIG yamlLoadModel
        pc.2 pc.1)).isSome = true) ∧
    ((BlogProcessor.getFeaturedBlogs DEFAULT_CONFIG yamlLoadModel
        [(sOf ("a.md"), sOf ("---\nfeatured: true\ndate: 2024-01-02\n---\nA"))]
        (some 1)).length ≤ (1 : Int).toNat ∧
      (∀ b ∈ BlogProcessor.getFeaturedBlogs DEFAULT_CONFIG yamlLoadModel
          [(sOf ("a.md"), sOf ("---\nfeatured: true\ndate: 2024-01-02\n---\nA"))]
          (some 1), b.featured = boolV true) ∧
      (BlogProcessor.getFeaturedBlogs DEFAULT_CONFIG yamlLoadModel
          [(sOf ("a.md"), sOf ("---\nfeatured: true\ndate: 2024-01-02\n---\nA"))]
          (some 1)).Pairwise
        (fun a b => (dateSortKey b).getD 0 ≤ (dateSortKey a).getD 0)) :=
  ⟨by decide, by decide,
    C5_getFeaturedBlogs DEFAULT_CONFIG yamlLoadModel _ 1 (by decide) (by decide)⟩

lemma bumpCount_sum (m : List (Str × Nat)) (k : Str) :
    ((BlogProcessor.bumpCount m k).map (fun t => t.2)).sum =
      (m.map (fun t => t.2)).sum + 1 := by
  induction m with
  | nil => rfl
  | cons kv rest ih =>
    obtain ⟨k', n⟩ := kv
    by_cases h : k' = k <;> simp [BlogProcessor.bumpCount, h, ih] <;> omega

lemma tagFold_sum (xs : List YVal) : ∀ acc : List (Str × Nat),
    ((xs.foldl (fun a t => BlogProcessor.bumpCount a (yKeyStr t)) acc).map
      (fun t => t.2)).sum = (acc.map (fun t => t.2)).sum + xs.length := by
  induction xs with
  | nil => intro acc; simp
  | cons t ts ih =>
    intro acc
    rw [List.foldl_cons, ih, bumpCount_sum]
    simp only [List.length_cons]
    omega

lemma blogsFold_sum (blogs : List BlogMeta) : ∀ acc : List (Str × Nat),
    ((blogs.foldl (fun acc blog =>
        match blog.tags with
        | listV xs => xs.foldl (fun a t => BlogProcessor.bumpCount a (yKeyStr t)) acc
        | _ => acc) acc).map (fun t => t.2)).sum =
      (acc.map (fun t => t.2)).sum + (blogs.map tagLen).sum := by
  induction blogs with
  | nil => intro acc; simp
  | cons b bs ih =>
    intro acc
    rw [List.foldl_cons, ih]
    cases hb : b.tags <;> simp [tagLen, hb, tagFold_sum] <;> omega

lemma filterMap_map_sum {α β : Type} (f : α → Option β) (g : β → Nat)
    (l : List α) :
    ((l.filterMap f).map g).sum = (l.map (fun x => ((f x).map g).getD 0)).sum := by
  induction l with
  | nil => rfl
  | cons x xs ih => rcases hf : f x <;> simp [List.filterMap_cons, hf, ih]

lemma sortCmp_map_sum {α : Type} (c : α → α → Int) (g : α → Nat) (l : List α) :
    ((sortCmp c l).map g).sum = (l.map g).sum :=
  ((sortCmp_perm c l).map g).sum_eq

lemma processFile_default (cfg : BlogExtractionConfig) (yl : Str → Option Fm)
    (inc : Bool) (pc : Str × Str) :
    BlogProcessor.processFile cfg yl (resolveOptions { includeDrafts := some inc }) pc =
      (if !inc && yTruthy (BlogExtractor.extractMeta cfg yl pc.2 pc.1).draft then none
       else some (BlogExtractor.extractMeta cfg yl pc.2 pc.1)) := by
  by_cases h : (!inc && yTruthy (BlogExtractor.extractMeta cfg yl pc.2 pc.1).draft) = true <;>
    simp [BlogProcessor.processFile, resolveOptions, passesFilter_empty, h]

/-- C9: the counts returned by `getTagsWithCounts` (drafts excluded)
sum to the total number of tag occurrences across the non-draft
records, and the list is sorted in descending order of count. -/
theorem C9_getTagsWithCounts (cfg : BlogExtractionConfig) (yl : Str → Option Fm)
    (files : List (Str × Str)) :
    ((BlogProcessor.getTagsWithCounts cfg yl files false).map (fun t => t.2)).sum =
      (files.map (fun pc =>
        if yTruthy (BlogExtractor.extractMeta cfg yl pc.2 pc.1).draft then 0
        else tagLen (BlogExtractor.extractMeta cfg yl pc.2 pc.1))).sum ∧
    (BlogProcessor.getTagsWithCounts cfg yl files false).Pairwise
      (fun a b => b.2 ≤ a.2) := by
  have hmain : BlogProcessor.getTagsWithCounts cfg yl files false =
      sortCmp (fun a b => ((b.2 : Int) - (a.2 : Int)))
        ((BlogProcessor.getAllBlogMeta cfg yl files
          { includeDrafts := some false }).foldl
          (fun acc blog =>
            match blog.tags with
            | listV xs => xs.foldl (fun a t => BlogProcessor.bumpCount a (yKeyStr t)) acc
            | _ => acc) []) := rfl
  constructor
  · rw [hmain, sortCmp_map_sum, blogsFold_sum]
    have hga : BlogProcessor.getAllBlogMeta cfg yl files
        { includeDrafts := some false } =
        sortCmp (blogCmp SortKey.date SortOrder.desc)
          (files.filterMap (BlogProcessor.processFile cfg yl
            (resolveOptions { includeDrafts := some false }))) := rfl
    rw [hga, sortCmp_map_sum, filterMap_map_sum]
    simp only [List.map_nil, List.sum_nil, Nat.zero_add]
    have hfun : ∀ pc : Str × Str,
        ((BlogProcessor.processFile cfg yl
          (resolveOptions { includeDrafts := some false }) pc).map tagLen).getD 0 =
          (if yTruthy (BlogExtractor.extractMeta cfg yl pc.2 pc.1).draft = true then 0
           else tagLen (BlogExtractor.extractMeta cfg yl pc.2 pc.1)) := by
      intro pc
      rw [processFile_default]
      by_cases h : yTruthy (BlogExtractor.extractMeta cfg yl pc.2 pc.1).draft = true
      · simp [h]
      · simp [h]
    simp only [hfun]
  · rw [hmain]
    refine List.Pairwise.imp ?_
      (sortCmp_pairwise (fun a b : Str × Nat => ((b.2 : Int) - (a.2 : Int)))
        (fun _ => True) ?_ ?_ _ (fun _ _ => trivial))
    · intro a b h
      dsimp only at h
      omega
    · intro a b _ _
      dsimp only
      omega
    · intro a b d _ _ _ h1 h2
      dsimp only at h1 h2 ⊢
      omega

lemma NormalFm_default : NormalFm DEFAULT_FRONTMATTER := by
  refine ⟨⟨false, rfl⟩, ⟨false, rfl⟩, ⟨listV [], rfl, rfl⟩, ?_, by decide⟩
  intro v hv _
  rw [show fmGet DEFAULT_FRONTMATTER dateK = (none : Option YVal) from rfl] at hv
  exact Option.noConfusion hv

/-- Every frontmatter object returned by `parse` is normalized. -/
lemma parse_frontmatter_normal (yl : Str → Option Fm) (raw : Str) :
    NormalFm (parse yl raw).frontmatter := by
  rcases hs : splitFM raw with _ | ⟨ft, c⟩
  · simp only [parse, hs]
    exact NormalFm_default
  · rcases hy : yl ft with _ | p
    · simp only [parse, hs, hy]
      exact NormalFm_default
    · simp only [parse, hs, hy]
      exact normal_normalize _

/-- The `draft` field of an extracted record is always a boolean, and
its truthiness is that boolean. -/
lemma extractMeta_draft_bool (cfg : BlogExtractionConfig) (yl : Str → Option Fm)
    (content filePath : Str) :
    ∃ b, (BlogExtractor.extractMeta cfg yl content filePath).draft = boolV b ∧
      yTruthy (BlogExtractor.extractMeta cfg yl content filePath).draft = b := by
  have hd : (BlogExtractor.extractMeta cfg yl content filePath).draft =
      jsOrY (fmGet (parse yl content).frontmatter draftK) (boolV false) := rfl
  obtain ⟨⟨b, hb⟩, _⟩ := parse_frontmatter_normal yl content
  rw [hd, hb]
  cases b
  · exact ⟨false, rfl, rfl⟩
  · exact ⟨true, rfl, rfl⟩

/-- C10: `getBlogBySlug(slug, includeDrafts)` returns `null` exactly
when no file's name (directory and `.md` suffix stripped) equals the
slug, or the first matching record is a draft while drafts are excluded;
otherwise it returns the extracted record with the document's content,
metadata block stripped. -/
theorem C10_getBlogBySlug (cfg : BlogExtractionConfig) (yl : Str → Option Fm)
    (files : List (Str × Str)) (slug : Str) (inc : Bool) :
    (BlogProcessor.getBlogBySlug cfg yl files slug inc = none ↔
      ((∀ pc ∈ files, ¬ BlogExtractor.generateSlug pc.1 = slug) ∨
       (∃ pc, files.find? (fun q => BlogExtractor.generateSlug q.1 == slug) =
            some pc ∧
          (BlogExtractor.extractMeta cfg yl pc.2 pc.1).draft = boolV true ∧
          inc = false))) ∧
    (∀ pc, files.find? (fun q => BlogExtractor.generateSlug q.1 == slug) = some pc →
      ¬((BlogExtractor.extractMeta cfg yl pc.2 pc.1).draft = boolV true ∧
        inc = false) →
      BlogProcessor.getBlogBySlug cfg yl files slug inc =
        some ⟨BlogExtractor.extractMeta cfg yl pc.2 pc.1,
          (parse yl pc.2).content⟩) := by
  rcases hf : files.find? (fun q => BlogExtractor.generateSlug q.1 == slug)
    with _ | pc
  · have hnone : BlogProcessor.getBlogBySlug cfg yl files slug inc = none := by
      simp [BlogProcessor.getBlogBySlug, hf]
    constructor
    · refine iff_of_true hnone (Or.inl ?_)
      intro pc hpc hsl
      exact (List.find?_eq_none.mp hf pc hpc) (by simp [hsl])
    · intro pc' hpc' _
      rw [hf] at hpc'
      exact Option.noConfusion hpc'
  · obtain ⟨b, hb, hyb⟩ := extractMeta_draft_bool cfg yl pc.2 pc.1
    have hmem : pc ∈ files := List.mem_of_find?_eq_some hf
    have hslug : BlogExtractor.generateSlug pc.1 = slug := by
      simpa using List.find?_some hf
    have hgb : BlogProcessor.getBlogBySlug cfg yl files slug inc =
        (if yTruthy (BlogExtractor.extractMeta cfg yl pc.2 pc.1).draft && !inc then
          none
         else some ⟨BlogExtractor.extractMeta cfg yl pc.2 pc.1,
          (parse yl pc.2).content⟩) := by
      simp [BlogProcessor.getBlogBySlug, hf]
    constructor
    · cases b
      · refine iff_of_false ?_ ?_
        · rw [hgb, hyb]
          simp
        · rintro (hall | ⟨pc', hpc', hdraft, _⟩)
          · exact hall pc hmem hslug
          · rw [hf] at hpc'
            injection hpc' with he
            subst he
            rw [hb] at hdraft
            simp at hdraft
      · cases inc
        · refine iff_of_true ?_ (Or.inr ⟨pc, hf, hb, rfl⟩)
          rw [hgb, hyb]
          simp
        · refine iff_of_false ?_ ?_
          · rw [hgb, hyb]
            simp
          · rintro (hall | ⟨pc', hpc', _, hincf⟩)
            · exact hall pc hmem hslug
            · exact Bool.noConfusion hincf
    · intro pc' hpc' hcond
      rw [hf] at hpc'
      injection hpc' with he
      subst he
      rw [hgb]
      have hcf : ¬(yTruthy (BlogExtractor.extractMeta cfg yl pc.2 pc.1).draft &&
          !inc) = true := by
        rw [hyb]
        cases b
        · simp
        · cases inc
          · exact absurd ⟨hb, rfl⟩ hcond
          · simp
      simp [hcf]

/-- C10 (witness): evaluated on a one-file collection whose record is a
draft, with drafts excluded. -/
theorem C10_witness :
    (BlogProcessor.getBlogBySlug DEFAULT_CONFIG yamlLoadModel
        [(sOf ("a.md"), sOf ("---\ndraft: true\n---\nA"))] (sOf ("a")) false =
          none ↔
      ((∀ pc ∈ [(sOf ("a.md"), sOf ("---\ndraft: true\n---\nA"))],
          ¬ BlogExtractor.generateSlug pc.1 = sOf ("a")) ∨
       (∃ pc, [(sOf ("a.md"), sOf ("---\ndraft: true\n---\nA"))].find?
            (fun q => BlogExtractor.generateSlug q.1 == sOf ("a")) = some pc ∧
          (BlogExtractor.extractMeta DEFAULT_CONFIG yamlLoadModel pc.2
            pc.1).draft = boolV true ∧
          false = false))) ∧
    (∀ pc, [(sOf ("a.md"), sOf ("---\ndraft: true\n---\nA"))].find?
        (fun q => BlogExtractor.generateSlug q.1 == sOf ("a")) = some pc →
      ¬((BlogExtractor.extractMeta DEFAULT_CONFIG yamlLoadModel pc.2
          pc.1).draft = boolV true ∧ false = false) →
      BlogProcessor.getBlogBySlug DEFAULT_CONFIG yamlLoadModel
          [(sOf ("a.md"), sOf ("---\ndraft: true\n---\nA"))] (sOf ("a")) false =
        some ⟨BlogExtractor.extractMeta DEFAULT_CONFIG yamlLoadModel pc.2 pc.1,
          (parse yamlLoadModel pc.2).content⟩) :=
  C10_getBlogBySlug DEFAULT_CONFIG yamlLoadModel
    [(sOf ("a.md"), sOf ("---\ndraft: true\n---\nA"))] (sOf ("a")) false

/-! ## Round-trip lemmas (C6) -/

lemma jsTrim_cons_ws (c : Char) (s : Str) (h : jsWs c = true) :
    jsTrim (c :: s) = jsTrim s := by
  simp [jsTrim, jsTrimStart, List.dropWhile_cons, h]

lemma jsTrimEnd_append_ws (s : Str) (c : Char) (h : jsWs c = true) :
    jsTrimEnd (s ++ [c]) = jsTrimEnd s := by
  simp [jsTrimEnd, List.reverse_append, List.dropWhile_cons, h]

lemma jsTrim_append_ws (s : Str) (c : Char) (h : jsWs c = true) :
    jsTrim (s ++ [c]) = jsTrim s := by
  unfold jsTrim jsTrimStart
  rw [List.dropWhile_append]
  by_cases he : (s.dropWhile jsWs).isEmpty
  · have he' : s.dropWhile jsWs = [] := by simpa using he
    simp [he, he', List.dropWhile_cons, h, jsTrimEnd]
  · simp only [he, Bool.false_eq_true, if_false]
    exact jsTrimEnd_append_ws _ _ h

lemma take_length_append {α : Type} (l₁ l₂ : List α) :
    (l₁ ++ l₂).take l₁.length = l₁ := by
  induction l₁ with
  | nil => rfl
  | cons a l ih => simp [ih]

lemma jsTrim_create (d : Str) :
    jsTrim (sOf ("---\n") ++ d ++ sOf ("---\n")) =
      sOf ("---\n") ++ d ++ sOf ("---") := by
  rw [show sOf ("---\n") = ['-', '-', '-', '\n'] from rfl,
    show sOf ("---") = ['-', '-', '-'] from rfl]
  have hnws : jsWs '-' = false := rfl
  have hws : jsWs '\n' = true := rfl
  have h1 : jsTrimStart (['-', '-', '-', '\n'] ++ d ++ ['-', '-', '-', '\n']) =
      ['-', '-', '-', '\n'] ++ d ++ ['-', '-', '-', '\n'] := by
    simp [jsTrimStart, List.cons_append, List.dropWhile_cons, hnws]
  show jsTrimEnd (jsTrimStart _) = _
  rw [h1, jsTrimEnd]
  simp [List.reverse_append, List.dropWhile_cons, hws, hnws]

lemma splitFM_create (d : Str) (hlast : d.getLast? = some '\n')
    (hidx : jsIndexOfFrom (sOf ("---\n") ++ d ++ sOf ("---")) (sOf ("\n---")) 3 =
      some (3 + d.length)) :
    splitFM (sOf ("---\n") ++ d ++ sOf ("---\n")) = some (jsTrim d, []) := by
  have hdne : d ≠ [] := by
    intro h
    rw [h] at hlast
    exact Option.noConfusion hlast
  have hdec : d.dropLast ++ ['\n'] = d := by
    have h1 := List.dropLast_append_getLast hdne
    have h2 : d.getLast hdne = '\n' := by
      have := List.getLast?_eq_getLast d hdne
      rw [hlast] at this
      exact (Option.some.inj this).symm
    rw [h2] at h1
    exact h1
  have hpre : (sOf ("---")).isPrefixOf (sOf ("---\n") ++ d ++ sOf ("---")) =
      true := rfl
  have htake : (sOf ("---\n") ++ d ++ sOf ("---")).take (3 + d.length) =
      '-' :: ('-' :: ('-' :: ('\n' :: d.dropLast))) := by
    rw [show sOf ("---\n") ++ d ++ sOf ("---") =
      '-' :: ('-' :: ('-' :: ('\n' :: (d ++ ['-', '-', '-'])))) from rfl]
    have hlen : d.length = d.dropLast.length + 1 := by
      conv_lhs => rw [← hdec]
      simp
    rw [show 3 + d.length = d.length + 2 + 1 from by omega, List.take_succ_cons,
      show d.length + 2 = d.length + 1 + 1 from by omega, List.take_succ_cons,
      List.take_succ_cons, hlen, List.take_succ_cons]
    rw [show d ++ ['-', '-', '-'] = d.dropLast ++ (['\n'] ++ ['-', '-', '-']) from
      by rw [← List.append_assoc, hdec]]
    rw [take_length_append]
  have hdrop : (sOf ("---\n") ++ d ++ sOf ("---")).drop (3 + d.length + 4) =
      [] := by
    apply List.drop_eq_nil_of_le
    simp [sOf]
    omega
  have htr : jsTrim (('\n' : Char) :: d.dropLast) = jsTrim d := by
    rw [jsTrim_cons_ws '\n' d.dropLast rfl]
    conv_rhs => rw [← hdec]
    rw [jsTrim_append_ws d.dropLast '\n' rfl]
  simp only [splitFM, jsTrim_create, hpre, if_true, hidx, htake, hdrop]
  rw [show ('-' :: ('-' :: ('-' :: ('\n' :: d.dropLast)))).drop 3 =
    ('\n' : Char) :: d.dropLast from rfl]
  rw [htr]
  rfl

/-- C6: if `parse` finds a valid metadata block in `raw`, then parsing
the `create`-serialization of the resulting frontmatter yields
frontmatter equal field-for-field (modulo key ordering) to the first
parse's frontmatter.  The YAML codec is the external `js-yaml` library;
the hypotheses state its contract on the dumped text: the dump is
newline-terminated, contains no premature `\n---` (so the first closing
delimiter of the created block is the final one), and decodes (after
trimming) back to the same object. -/
theorem C6_parse_create_roundtrip (yl : Str → Option Fm) (yd : Fm → Str)
    (raw : Str)
    (h1 : (parse yl raw).hasFrontmatter = true)
    (hlast : (yd (parse yl raw).frontmatter).getLast? = some '\n')
    (hidx : jsIndexOfFrom
        (sOf ("---\n") ++ yd (parse yl raw).frontmatter ++ sOf ("---"))
        (sOf ("\n---")) 3 =
      some (3 + (yd (parse yl raw).frontmatter).length))
    (hload : yl (jsTrim (yd (parse yl raw).frontmatter)) =
      some ((parse yl raw).frontmatter)) :
    fmEquiv
      (parse yl (create yd ((parse yl raw).frontmatter))).frontmatter
      ((parse yl raw).frontmatter) := by
  have hnorm : NormalFm (parse yl raw).frontmatter := parse_frontmatter_normal yl raw
  have hsp : splitFM (create yd ((parse yl raw).frontmatter)) =
      some (jsTrim (yd ((parse yl raw).frontmatter)), []) :=
    splitFM_create _ hlast hidx
  have hp2 : (parse yl (create yd ((parse yl raw).frontmatter))).frontmatter =
      normalizeFrontmatter
        (fmSpread DEFAULT_FRONTMATTER ((parse yl raw).frontmatter)) := by
    revert hsp hload
    generalize (parse yl raw).frontmatter = fm
    intro hsp hload
    simp [parse, hsp, hload]
  rw [hp2]
  exact normalize_of_normal _ hnorm

/-- C6 (witness): the round trip evaluated with the model codec on a
concrete document. -/
theorem C6_witness :
    fmEquiv
      (parse yamlLoadModel (create yamlDumpModel
        ((parse yamlLoadModel (sOf ("---\ntitle: hi\n---\nBody"))).frontmatter))).frontmatter
      ((parse yamlLoadModel (sOf ("---\ntitle: hi\n---\nBody"))).frontmatter) :=
  C6_parse_create_roundtrip yamlLoadModel yamlDumpModel
    (sOf ("---\ntitle: hi\n---\nBody")) (by decide) (by decide) (by decide) rfl
